import Mathlib

/-!
Verification of the expense reconciliation engine of `expense_manager.py` /
`database.py` (MoneyForward CSV import, expense matching, categorization).

Shallow embedding conventions:
* Python strings are `List Char` (`Str`); `str.lower` / SQLite `LOWER` are
  modelled as ASCII case folding (`Char.toLower`), `str.strip` as removal of
  the common whitespace characters (including U+3000) from both ends.
* SQLite tables are Lean lists in rowid order; `ORDER BY date DESC` is a
  stable insertion sort on the textual date (SQLite TEXT collation is modelled as
  codepoint-wise lexicographic comparison, which agrees with BINARY on the
  ASCII dates produced by the importer).
* `datetime.strptime`/`strftime` and `timedelta` arithmetic are modelled with
  a proleptic-Gregorian day-number (rata die) conversion.
* `int(float(s))` in `_parse_amount` is modelled exactly (for ASCII digits):
  the CPython float-literal grammar (sign, underscore-separated digit parts,
  fraction, exponent, `inf`/`infinity`/`nan`), round-to-nearest-even
  conversion to IEEE binary64, and truncation toward zero.  `float` of a
  malformed literal and `int` of a NaN raise `ValueError`, which the importer
  catches per row; `int` of an infinity (overflowing literals included)
  raises `OverflowError`, which the importer does NOT catch -- the import
  aborts, modelled by the importer's crash flag.
* The Gemini LLM is an oracle `LLM : Str → Str → Option Str` (`none` = the
  call raised); database write failure during a certain-match commit is an
  oracle `CF : Nat → Str → Bool` (`true` = the write raised, leaving the
  transaction unapplied).  Timestamps (`imported_at` etc.) are not modelled.
-/

abbrev Str := List Char

/-- Characters removed by Python `str.strip()` (the common ones, incl. U+3000). -/
def isPySpace (c : Char) : Bool :=
  c == ' ' || c == '\t' || c == '\n' || c == '\x0b' || c == '\x0c' || c == '\r' || c == '　'

/-- Python `str.strip()`. -/
def pyStrip (s : Str) : Str :=
  ((s.dropWhile isPySpace).reverse.dropWhile isPySpace).reverse

/-- Python `str.lower()` / SQLite `LOWER`, ASCII case folding. -/
def pyLower (s : Str) : Str := s.map Char.toLower

/-- `.replace(" ", "").replace("　", "")` of `_partial_match_score`. -/
def removeSpaces (s : Str) : Str := s.filter (fun c => !(c == ' ' || c == '　'))

/-- Codepoint-wise lexicographic `≤` on strings (SQLite BINARY collation). -/
def strLe : Str → Str → Bool
  | [], _ => true
  | _ :: _, [] => false
  | a :: as, b :: bs =>
      if a.toNat < b.toNat then true
      else if b.toNat < a.toNat then false
      else strLe as bs

/-- `_partial_match_score`: substring either way after strip/lower/space removal. -/
def partial_match_score (a b : Str) : Bool :=
  let an := removeSpaces (pyLower (pyStrip a))
  let bn := removeSpaces (pyLower (pyStrip b))
  if an = [] || bn = [] then false
  else decide (an <:+: bn) || decide (bn <:+: an)

/-- Digit list to numeral (most significant first). -/
def digitsToNat (ds : Str) : Nat := ds.foldl (fun n c => 10 * n + (c.toNat - 48)) 0

structure YMD where
  year : Nat
  month : Nat
  day : Nat
deriving DecidableEq, Repr

def isLeapYear (y : Nat) : Bool := (y % 4 == 0 && y % 100 != 0) || y % 400 == 0

def daysInMonth (y m : Nat) : Nat :=
  if m = 2 then (if isLeapYear y then 29 else 28)
  else if m = 4 ∨ m = 6 ∨ m = 9 ∨ m = 11 then 30
  else 31

/-- Range validation done by `datetime.strptime` (`MINYEAR = 1`, `MAXYEAR = 9999`). -/
def validYMD (x : YMD) : Bool :=
  decide (1 ≤ x.year) && decide (x.year ≤ 9999) &&
  decide (1 ≤ x.month) && decide (x.month ≤ 12) &&
  decide (1 ≤ x.day) && decide (x.day ≤ daysInMonth x.year x.month)

/-- Parse `digits sep1 digits sep2 digits trail` with a 4-digit year and
1-2 digit month/day, as `strptime` accepts for `%Y`/`%m`/`%d` patterns. -/
def parseYMDParts (s : Str) (sep1 sep2 : Char) (trail : Str) : Option YMD :=
  let ys := s.takeWhile Char.isDigit
  match s.dropWhile Char.isDigit with
  | c1 :: r1 =>
    if c1 = sep1 then
      let ms := r1.takeWhile Char.isDigit
      match r1.dropWhile Char.isDigit with
      | c2 :: r2 =>
        if c2 = sep2 then
          let ds := r2.takeWhile Char.isDigit
          let r3 := r2.dropWhile Char.isDigit
          if ys.length = 4 ∧ 1 ≤ ms.length ∧ ms.length ≤ 2 ∧
              1 ≤ ds.length ∧ ds.length ≤ 2 ∧ r3 = trail then
            let x : YMD := ⟨digitsToNat ys, digitsToNat ms, digitsToNat ds⟩
            if validYMD x then some x else none
          else none
        else none
      | [] => none
    else none
  | [] => none

/-- `datetime.strptime(s, "%Y-%m-%d")`. -/
def parseISODate (s : Str) : Option YMD := parseYMDParts s '-' '-' []

def natDigitChar (n : Nat) : Char := Char.ofNat (48 + n)

def pad2 (n : Nat) : Str := [natDigitChar (n / 10 % 10), natDigitChar (n % 10)]

def pad4 (n : Nat) : Str :=
  [natDigitChar (n / 1000 % 10), natDigitChar (n / 100 % 10),
   natDigitChar (n / 10 % 10), natDigitChar (n % 10)]

/-- `strftime("%Y-%m-%d")`. -/
def formatISO (x : YMD) : Str := pad4 x.year ++ '-' :: (pad2 x.month ++ '-' :: pad2 x.day)

/-- Days since the civil epoch (proleptic Gregorian); Hinnant's algorithm.
All divisions are on nonnegative operands for valid dates. -/
def toRataDie (x : YMD) : Int :=
  let y : Int := if x.month ≤ 2 then (x.year : Int) - 1 else (x.year : Int)
  let m : Int := (x.month : Int)
  let d : Int := (x.day : Int)
  let era : Int := (if 0 ≤ y then y else y - 399).ediv 400
  let yoe : Int := y - era * 400
  let doy : Int := (153 * (m + (if 2 < m then -3 else 9)) + 2).ediv 5 + d - 1
  let doe : Int := yoe * 365 + yoe.ediv 4 - yoe.ediv 100 + doy
  era * 146097 + doe - 719468

/-- Inverse of `toRataDie` (civil-from-days). -/
def fromRataDie (z0 : Int) : YMD :=
  let z := z0 + 719468
  let era : Int := (if 0 ≤ z then z else z - 146096).ediv 146097
  let doe : Int := z - era * 146097
  let yoe : Int := (doe - doe.ediv 1460 + doe.ediv 36524 - doe.ediv 146096).ediv 365
  let y : Int := yoe + era * 400
  let doy : Int := doe - (365 * yoe + yoe.ediv 4 - yoe.ediv 100)
  let mp : Int := (5 * doy + 2).ediv 153
  let d : Int := doy - (153 * mp + 2).ediv 5 + 1
  let m : Int := if mp < 10 then mp + 3 else mp - 9
  let yy : Int := if m ≤ 2 then y + 1 else y
  ⟨yy.toNat, m.toNat, d.toNat⟩

/-- `base_date ± timedelta(days=k)`. -/
def addDays (x : YMD) (k : Int) : YMD := fromRataDie (toRataDie x + k)

/-- The calendar-day delta computed in `match_with_moneyforward`:
`abs((strptime(mf_date[:10]) - strptime(exp_date[:10])).days)`, 99 on parse failure. -/
def dayDeltaOf (mfDate expDate : Str) : Nat :=
  match parseISODate (mfDate.take 10), parseISODate (expDate.take 10) with
  | some a, some b => (toRataDie a - toRataDie b).natAbs
  | _, _ => 99

/-- `_normalize_date`: try `%Y/%m/%d`, `%Y-%m-%d`, `%Y年%m月%d日`; `""` on failure. -/
def normalize_date (s0 : Str) : Str :=
  let s := pyStrip s0
  if s = [] then []
  else
    match parseYMDParts s '/' '/' [] with
    | some x => formatISO x
    | none =>
      match parseYMDParts s '-' '-' [] with
      | some x => formatISO x
      | none =>
        match parseYMDParts s '年' '月' ['日'] with
        | some x => formatISO x
        | none => []

/-! ## Data model (`moneyforward_transactions` and `expenses` tables) -/

structure MFTransaction where
  mf_id : Str
  is_calculation_target : Nat
  date : Str
  content : Str
  amount : Int
  source_account : Str
  large_category : Str
  medium_category : Str
  memo : Str
  is_transfer : Nat
  matched_expense_id : Option Nat
deriving DecidableEq, Repr

structure Expense where
  id : Nat
  date : Str
  store_name : Str
  amount : Int
  category : Str
  subcategory : Option Str
  moneyforward_matched : Nat
  moneyforward_id : Option Str
deriving DecidableEq, Repr

/-- The SQLite database: both tables in rowid order, plus the `expenses`
AUTOINCREMENT counter. -/
structure DBState where
  expenses : List Expense
  mfTxs : List MFTransaction
  nextExpenseId : Nat
deriving DecidableEq, Repr

def initState : DBState := ⟨[], [], 1⟩

/-! ## Database operations (`database.py`) -/

/-- Stable insertion of `x` into `l`: `x` goes in front of the first element
it is `le`-related to. -/
def insertIn (le : α → α → Bool) (x : α) : List α → List α
  | [] => [x]
  | y :: ys => if le x y then x :: y :: ys else y :: insertIn le x ys

/-- Stable sort used to model SQLite `ORDER BY`. -/
def orderBy (le : α → α → Bool) : List α → List α
  | [] => []
  | x :: xs => insertIn le x (orderBy le xs)

/-- `ORDER BY date DESC` comparison for ledger rows (stable sort above). -/
def mfDateDesc (a b : MFTransaction) : Bool := strLe b.date a.date

def expDateDesc (a b : Expense) : Bool := strLe b.date a.date

/-- Whether the ledger table already holds a row with this `mf_id`. -/
def hasMfId (st : DBState) (i : Str) : Bool :=
  st.mfTxs.any (fun x => decide (x.mf_id = i))

/-- `Database.save_mf_transaction`: `INSERT OR IGNORE` keyed by the UNIQUE
`mf_id` column; returns whether a row was newly inserted. -/
def save_mf_transaction (st : DBState) (t : MFTransaction) : Bool × DBState :=
  if hasMfId st t.mf_id then (false, st)
  else (true, { st with mfTxs := st.mfTxs ++ [t] })

/-- `Database.get_unmatched_expenses` (`moneyforward_matched = 0`,
`ORDER BY date DESC LIMIT 100`). -/
def get_unmatched_expenses (st : DBState) : List Expense :=
  ((orderBy expDateDesc
    (st.expenses.filter (fun e => decide (e.moneyforward_matched = 0)))).take 100)

/-- `Database.get_mf_candidates_by_range`: unmatched spending rows in a
date range with matching absolute amount, `ORDER BY date DESC LIMIT 10`. -/
def get_mf_candidates_by_range (st : DBState) (date_from date_to : Str)
    (abs_amount : Nat) : List MFTransaction :=
  ((orderBy mfDateDesc
    (st.mfTxs.filter (fun t =>
      strLe date_from t.date && strLe t.date date_to &&
      decide (t.amount.natAbs = abs_amount) && decide (t.amount < 0) &&
      decide (t.matched_expense_id = none) &&
      decide (t.is_transfer = 0) && decide (t.is_calculation_target = 1)))).take 10)

/-- `Database.get_mf_candidates_by_amount`: unmatched spending rows with
matching absolute amount, no date constraint, `LIMIT 10`, then the Python-side
exclusion of already-surfaced ids. -/
def get_mf_candidates_by_amount (st : DBState) (abs_amount : Nat)
    (exclude_mf_ids : List Str) : List MFTransaction :=
  (((orderBy mfDateDesc
    (st.mfTxs.filter (fun t =>
      decide (t.amount.natAbs = abs_amount) && decide (t.amount < 0) &&
      decide (t.matched_expense_id = none) &&
      decide (t.is_transfer = 0) && decide (t.is_calculation_target = 1)))).take 10).filter
    (fun t => !(exclude_mf_ids.any (fun i => decide (i = t.mf_id)))))

/-- `UPDATE expenses SET moneyforward_matched=1, moneyforward_id=? WHERE id=?`. -/
def updExp (expense_id : Nat) (mf_id : Str) (e : Expense) : Expense :=
  if e.id = expense_id then
    { e with moneyforward_matched := 1, moneyforward_id := some mf_id }
  else e

/-- `UPDATE moneyforward_transactions SET matched_expense_id=? WHERE mf_id=?`. -/
def updTx (expense_id : Nat) (mf_id : Str) (t : MFTransaction) : MFTransaction :=
  if t.mf_id = mf_id then { t with matched_expense_id := some expense_id } else t

/-- `Database.match_expense_to_mf`: mark the expense matched and point the
ledger row back at the expense, in one transaction. -/
def match_expense_to_mf (st : DBState) (expense_id : Nat) (mf_id : Str) : DBState :=
  { st with
    expenses := st.expenses.map (updExp expense_id mf_id),
    mfTxs := st.mfTxs.map (updTx expense_id mf_id) }

/-- `Database.save_expense`: INSERT returning the fresh AUTOINCREMENT id. -/
def save_expense (st : DBState) (date store_name : Str) (amount : Int)
    (category : Str) (subcategory : Option Str) : Nat × DBState :=
  (st.nextExpenseId,
   { st with
     expenses := st.expenses ++
       [⟨st.nextExpenseId, date, store_name, amount, category, subcategory, 0, none⟩],
     nextExpenseId := st.nextExpenseId + 1 })

/-- `Database.get_expenses(store_name=..., limit=...)`: case-insensitive exact
store-name match, `ORDER BY date DESC LIMIT limit`. -/
def get_expenses_by_store (st : DBState) (store_name : Str) (limit : Nat) : List Expense :=
  ((orderBy expDateDesc
    (st.expenses.filter (fun e => decide (pyLower e.store_name = pyLower store_name)))).take
    limit)

/-! ## CSV importer (`ExpenseManager.import_moneyforward_csv`) -/

/-- One CSV data row after `csv.DictReader`: the raw cell strings the code
reads via `row.get(...)` (a missing column is covered by quantifying over the
default the code supplies). -/
structure CsvRow where
  mf_id : Str
  calc_target : Str
  date : Str
  content : Str
  amount : Str
  source_account : Str
  large_category : Str
  medium_category : Str
  memo : Str
  transfer_flag : Str
deriving DecidableEq, Repr

/-- `_parse_flag`. -/
def parse_flag (s0 : Str) : Nat :=
  let s := pyStrip s0
  if s = "1".toList ∨ s = "○".toList ∨ s = "true".toList ∨ s = "True".toList ∨
      s = "TRUE".toList then 1
  else 0

/-- A parsed Python float literal: finite value `(-1)^neg * mantissa * 10^exp10`,
a signed infinity, a NaN, or a malformed literal (`ValueError`). -/
inductive FloatParse where
  | finite (neg : Bool) (mantissa : Nat) (exp10 : Int)
  | infinite (neg : Bool)
  | notANumber
  | invalid
deriving DecidableEq, Repr

/-- Scan a CPython `digitpart`: digits with single underscores between
digits; returns the digits (underscores dropped) and the unread remainder. -/
def digitPartAux : Str → Str → Str × Str
  | acc, [] => (acc, [])
  | acc, c :: rest =>
      if c.isDigit then digitPartAux (acc ++ [c]) rest
      else if c = '_' then
        match rest with
        | d :: r2 => if d.isDigit then digitPartAux (acc ++ [d]) r2 else (acc, c :: rest)
        | [] => (acc, c :: rest)
      else (acc, c :: rest)

def parseDigitPart (s : Str) : Option (Str × Str) :=
  match s with
  | c :: rest => if c.isDigit then some (digitPartAux [c] rest) else none
  | [] => none

/-- CPython `float(s)` literal parsing (ASCII digits): optional sign, then
`inf`/`infinity`/`nan` (case-insensitive) or
`[digitpart] ["." [digitpart]] [("e"|"E") [sign] digitpart]` with at least
one mantissa digit and nothing left over; `float` strips surrounding
whitespace itself. -/
def parseFloatLit (s1 : Str) : FloatParse :=
  let s0 := pyStrip s1
  let signed : Bool × Str := match s0 with
    | '-' :: r => (true, r)
    | '+' :: r => (false, r)
    | r => (false, r)
  let neg := signed.1
  let s := signed.2
  let low := pyLower s
  if low = "inf".toList ∨ low = "infinity".toList then FloatParse.infinite neg
  else if low = "nan".toList then FloatParse.notANumber
  else
    let ipr : Str × Str := match parseDigitPart s with
      | some (ds, r) => (ds, r)
      | none => ([], s)
    let ipart := ipr.1
    let fr : Str × Str := match ipr.2 with
      | '.' :: r =>
        (match parseDigitPart r with
         | some (ds, r2) => (ds, r2)
         | none => ([], r))
      | r => ([], r)
    let fpart := fr.1
    let expRes : Option (Int × Str) := match fr.2 with
      | c :: r =>
          if c = 'e' ∨ c = 'E' then
            let es : Bool × Str := match r with
              | '-' :: r2 => (true, r2)
              | '+' :: r2 => (false, r2)
              | r2 => (false, r2)
            match parseDigitPart es.2 with
            | some (ds, r3) =>
                some ((if es.1 then -(digitsToNat ds : Int) else (digitsToNat ds : Int)), r3)
            | none => none
          else some (0, c :: r)
      | [] => some (0, [])
    match expRes with
    | none => FloatParse.invalid
    | some (ex, rem) =>
        if rem = [] ∧ ipart ++ fpart ≠ [] then
          FloatParse.finite neg (digitsToNat (ipart ++ fpart)) (ex - (fpart.length : Int))
        else FloatParse.invalid

/-- `⌊log2 n⌋` (0 for 0), via structural fuel recursion. -/
def log2Fuel : Nat → Nat → Nat
  | 0, _ => 0
  | fuel + 1, n => if 2 ≤ n then log2Fuel fuel (n / 2) + 1 else 0

def natLog2 (n : Nat) : Nat := log2Fuel n n

/-- Compare `p / q` with `2 ^ b` (for `p, q ≥ 1`). -/
def cmpPow2 (p q : Nat) (b : Int) : Ordering :=
  if 0 ≤ b then compare p (q * 2 ^ b.toNat)
  else compare (p * 2 ^ (-b).toNat) q

/-- `⌊log2 (p / q)⌋` for `p, q ≥ 1`. -/
def floorLog2Frac (p q : Nat) : Int :=
  let b0 : Int := (natLog2 p : Int) - (natLog2 q : Int)
  match cmpPow2 p q b0 with
  | Ordering.lt => b0 - 1
  | _ => b0

/-- Round the positive value `D * 10 ^ e` (`D ≥ 1`) to the nearest IEEE
binary64 (round half to even, subnormals included): `some (n, s)` is the
magnitude `n * 2 ^ s`, `none` means it overflows to infinity. -/
def roundDouble (D : Nat) (e : Int) : Option (Nat × Int) :=
  let p := if 0 ≤ e then D * 10 ^ e.toNat else D
  let q := if 0 ≤ e then 1 else 10 ^ (-e).toNat
  let b := floorLog2Frac p q
  if 1023 < b then none
  else
    let s : Int := if b < -1022 then -1074 else b - 52
    let num := if 0 ≤ s then p else p * 2 ^ (-s).toNat
    let den := if 0 ≤ s then q * 2 ^ s.toNat else q
    let n0 := num / den
    let r := num % den
    let n := if den < 2 * r then n0 + 1
             else if 2 * r < den then n0
             else if n0 % 2 = 0 then n0 else n0 + 1
    if b = 1023 ∧ n = 2 ^ 53 then none
    else some (n, s)

/-- Outcome of Python `int(float(s))`: a value, a `ValueError` (malformed
literal or NaN), or an `OverflowError` (infinite float). -/
inductive PyNumResult where
  | ok (n : Int)
  | valueError
  | overflowError
deriving DecidableEq, Repr

/-- `int(float(s))`: parse the literal, round to binary64, truncate toward
zero; NaN → `ValueError`, infinity → `OverflowError`. -/
def intOfFloatLit : FloatParse → PyNumResult
  | FloatParse.invalid => PyNumResult.valueError
  | FloatParse.notANumber => PyNumResult.valueError
  | FloatParse.infinite _ => PyNumResult.overflowError
  | FloatParse.finite neg D e =>
      if D = 0 then PyNumResult.ok 0
      else
        match roundDouble D e with
        | none => PyNumResult.overflowError
        | some (n, s) =>
            let mag : Nat := if 0 ≤ s then n * 2 ^ s.toNat else n / 2 ^ (-s).toNat
            PyNumResult.ok ((if neg then -1 else 1) * (mag : Int))

/-- `_parse_amount`: strip, drop commas, empty → 0, else `int(float(s))`. -/
def parse_amount (s0 : Str) : PyNumResult :=
  let s := (pyStrip s0).filter (fun c => !(c == ','))
  if s = [] then PyNumResult.ok 0 else intOfFloatLit (parseFloatLit s)

inductive ImportErr where
  | dateParse (mf_id raw : Str)
  | amountParse (mf_id raw : Str)
deriving DecidableEq, Repr

structure ImportResult where
  imported : Nat
  skipped : Nat
  errors : List ImportErr
deriving DecidableEq, Repr

inductive RowParse where
  | emptyId
  | badDate (mf_id raw : Str)
  | badAmount (mf_id raw : Str)
  | crashed
  | ok (t : MFTransaction)
deriving DecidableEq, Repr

/-- The per-row parsing logic of `import_moneyforward_csv` (id check, column
mapping, date normalization, amount parsing), before the database insert.
A `ValueError` from the amount is caught and recorded (`badAmount`); an
`OverflowError` is not caught by the importer's `except ValueError`, so it
aborts the whole import (`crashed`). -/
def parseCsvRow (row : CsvRow) : RowParse :=
  let raw_id := pyStrip row.mf_id
  if raw_id = [] then .emptyId
  else
    let date_str := pyStrip row.date
    let dn := normalize_date date_str
    if dn = [] then .badDate raw_id date_str
    else
      match parse_amount (pyStrip row.amount) with
      | PyNumResult.valueError => .badAmount raw_id (pyStrip row.amount)
      | PyNumResult.overflowError => .crashed
      | PyNumResult.ok amt => .ok
          { mf_id := raw_id
            is_calculation_target := parse_flag row.calc_target
            date := dn
            content := pyStrip row.content
            amount := amt
            source_account := pyStrip row.source_account
            large_category := pyStrip row.large_category
            medium_category := pyStrip row.medium_category
            memo := pyStrip row.memo
            is_transfer := parse_flag row.transfer_flag
            matched_expense_id := none }

/-- One loop iteration of `import_moneyforward_csv`; `none` models the
uncaught `OverflowError` propagating out of the loop. -/
def import_step (acc : DBState × ImportResult) (row : CsvRow) :
    Option (DBState × ImportResult) :=
  match parseCsvRow row with
  | .crashed => none
  | .emptyId => some (acc.1, { acc.2 with skipped := acc.2.skipped + 1 })
  | .badDate i raw =>
      some (acc.1, { acc.2 with skipped := acc.2.skipped + 1,
                                errors := acc.2.errors ++ [.dateParse i raw] })
  | .badAmount i raw =>
      some (acc.1, { acc.2 with skipped := acc.2.skipped + 1,
                                errors := acc.2.errors ++ [.amountParse i raw] })
  | .ok t =>
      match save_mf_transaction acc.1 t with
      | (true, st') => some (st', { acc.2 with imported := acc.2.imported + 1 })
      | (false, st') => some (st', { acc.2 with skipped := acc.2.skipped + 1 })

/-- The import loop: processes rows in file order until done or until an
uncaught exception aborts it; the Bool is the crash flag, and the state is
what had been inserted up to that point (each insert commits separately). -/
def import_run : DBState × ImportResult → List CsvRow → (DBState × ImportResult) × Bool
  | acc, [] => (acc, false)
  | acc, row :: rest =>
      match import_step acc row with
      | none => (acc, true)
      | some acc' => import_run acc' rest

/-- `ExpenseManager.import_moneyforward_csv` over the parsed data rows:
`.1.1` is the database state, `.1.2` the returned counters (meaningful only
when the crash flag `.2` is `false`, i.e. the call returned normally). -/
def import_moneyforward_csv (st : DBState) (rows : List CsvRow) :
    (DBState × ImportResult) × Bool :=
  import_run (st, ⟨0, 0, []⟩) rows

/-- Whether this row's amount raises the uncaught `OverflowError`. -/
def isCrashRow (row : CsvRow) : Bool :=
  match parseCsvRow row with
  | RowParse.crashed => true
  | _ => false

/-- The rows the import processes before hitting the first crashing row
(all of them when none crashes). -/
def preCrash : List CsvRow → List CsvRow
  | [] => []
  | row :: rest =>
      match parseCsvRow row with
      | RowParse.crashed => []
      | _ => row :: preCrash rest

/-! ## Reconciliation engine (`ExpenseManager.match_with_moneyforward`) -/

/-- The Gemini collaborator for yes/no similarity: `none` models an exception
(or timeout) raised by the call, `some ans` the returned text. -/
abbrev LLM := Str → Str → Option Str

/-- Database-write failure oracle for `match_expense_to_mf` during a
certain-match commit: `true` means the write raises (the transaction is
rolled back, so the state is unchanged). -/
abbrev CF := Nat → Str → Bool

/-- `_gemini_similarity_check`: empty inputs → `False` without calling the
LLM; a raised call → `False`; else `"yes" in answer.strip().lower()`.
Also returns the log of actual LLM invocations, each tagged with whether a
certain match had already been committed for the expense at call time. -/
structure SimCall where
  a : Str
  b : Str
  afterCertain : Bool
deriving DecidableEq, Repr

def simCheckWithLog (llm : LLM) (a b : Str) (afterCertain : Bool) :
    Bool × List SimCall :=
  if a = [] || b = [] then (false, [])
  else
    match llm a b with
    | none => (false, [⟨a, b, afterCertain⟩])
    | some ans =>
        (decide ("yes".toList <:+: pyLower (pyStrip ans)), [⟨a, b, afterCertain⟩])

def gemini_similarity_check (llm : LLM) (a b : Str) : Bool :=
  (simCheckWithLog llm a b false).1

inductive Confidence where
  | likely
  | uncertain
deriving DecidableEq, Repr

structure Candidate where
  mf : MFTransaction
  confidence : Confidence
deriving DecidableEq, Repr

structure ResultEntry where
  expense : Expense
  candidates : List Candidate
deriving DecidableEq, Repr

/-- `_get_mf_candidates_in_range`: parse the expense date, build the ±days
window, delegate to the range query ([] on date parse failure). -/
def get_mf_candidates_in_range (st : DBState) (date_str : Str) (amount : Nat)
    (days : Int) : List MFTransaction :=
  match parseISODate (date_str.take 10) with
  | none => []
  | some base =>
      get_mf_candidates_by_range st (formatISO (addDays base (-days)))
        (formatISO (addDays base days)) amount

/-- Loop state of the candidate scan for one expense, with instrumentation:
`simLog` records LLM similarity invocations, `attempts` the certain-match
commit attempts `(expense_id, mf_id)`, `commits` the successful ones with the
committed row snapshot. -/
structure ExpLoopState where
  st : DBState
  foundIds : List Str
  certain : Bool
  likely : List MFTransaction
  simLog : List SimCall
  attempts : List (Nat × Str)
  commits : List (Nat × MFTransaction)

/-- The three-way branch at the end of one candidate-loop iteration:
certain-match commit attempt (failing or succeeding) or "likely" fallthrough.
`cond` is the certain-match condition `day_delta <= 1 and name_match and not
certain_matched`; `foundIds`/`simLog` are the already-extended logs. -/
def applyCandDecision (cf : CF) (e : Expense) (mf : MFTransaction) (ls : ExpLoopState)
    (foundIds : List Str) (simLog : List SimCall) (cond : Bool) : ExpLoopState :=
  if cond then
    if cf e.id mf.mf_id then
      { ls with foundIds := foundIds, simLog := simLog,
                likely := ls.likely ++ [mf],
                attempts := ls.attempts ++ [(e.id, mf.mf_id)] }
    else
      { ls with foundIds := foundIds, simLog := simLog,
                st := match_expense_to_mf ls.st e.id mf.mf_id,
                certain := true,
                attempts := ls.attempts ++ [(e.id, mf.mf_id)],
                commits := ls.commits ++ [(e.id, mf)] }
  else
    { ls with foundIds := foundIds, simLog := simLog, likely := ls.likely ++ [mf] }

/-- One iteration of the candidate loop in `match_with_moneyforward`. -/
def processCand (llm : LLM) (cf : CF) (e : Expense) (ls : ExpLoopState)
    (mf : MFTransaction) : ExpLoopState :=
  let sim := if partial_match_score e.store_name mf.content then (true, [])
             else simCheckWithLog llm e.store_name mf.content ls.certain
  applyCandDecision cf e mf ls (ls.foundIds ++ [mf.mf_id]) (ls.simLog ++ sim.2)
    (decide (dayDeltaOf mf.date e.date ≤ 1) && sim.1 && !ls.certain)

def processCands (llm : LLM) (cf : CF) (e : Expense) :
    ExpLoopState → List MFTransaction → ExpLoopState
  | ls, [] => ls
  | ls, mf :: rest => processCands llm cf e (processCand llm cf e ls mf) rest

structure ExpOutcome where
  st : DBState
  entry : Option ResultEntry
  simLog : List SimCall
  attempts : List (Nat × Str)
  commits : List (Nat × MFTransaction)

/-- The body of the per-expense loop of `match_with_moneyforward`: scan the
±2-day window, auto-match the first certain candidate, then (if no certain
match) add the amount-only "uncertain" candidates and emit the result entry. -/
def processExpense (llm : LLM) (cf : CF) (st : DBState) (e : Expense) : ExpOutcome :=
  let cands := get_mf_candidates_in_range st e.date e.amount.natAbs 2
  let ls := processCands llm cf e ⟨st, [], false, [], [], [], []⟩ cands
  if ls.certain then ⟨ls.st, none, ls.simLog, ls.attempts, ls.commits⟩
  else
    let unc := get_mf_candidates_by_amount ls.st e.amount.natAbs ls.foundIds
    ⟨ls.st,
     some ⟨e, ls.likely.map (fun m => ⟨m, .likely⟩) ++ unc.map (fun m => ⟨m, .uncertain⟩)⟩,
     ls.simLog, ls.attempts, ls.commits⟩

structure PassAcc where
  st : DBState
  results : List ResultEntry
  simLog : List SimCall
  attempts : List (Nat × Str)
  commits : List (Nat × MFTransaction)

def processExpenses (llm : LLM) (cf : CF) : PassAcc → List Expense → PassAcc
  | acc, [] => acc
  | acc, e :: rest =>
      let r := processExpense llm cf acc.st e
      processExpenses llm cf
        { st := r.st,
          results := acc.results ++ (match r.entry with | some en => [en] | none => []),
          simLog := acc.simLog ++ r.simLog,
          attempts := acc.attempts ++ r.attempts,
          commits := acc.commits ++ r.commits } rest

/-- `ExpenseManager.match_with_moneyforward` (one reconciliation pass). -/
def match_with_moneyforward (llm : LLM) (cf : CF) (st : DBState) : PassAcc :=
  processExpenses llm cf ⟨st, [], [], [], []⟩ (get_unmatched_expenses st)

/-- All candidates the pass returned for the expense with the given id
(empty when the expense does not appear in the returned list at all). -/
def candidatesFor (rs : List ResultEntry) (i : Nat) : List Candidate :=
  (rs.filter (fun r => decide (r.expense.id = i))).flatMap (fun r => r.candidates)

def candidateIds (rs : List ResultEntry) : List Str :=
  rs.flatMap (fun r => r.candidates.map (fun c => c.mf.mf_id))

def findMf (st : DBState) (i : Str) : Option MFTransaction :=
  st.mfTxs.find? (fun t => decide (t.mf_id = i))

def findExp (st : DBState) (i : Nat) : Option Expense :=
  st.expenses.find? (fun e => decide (e.id = i))

/-! ## Categorizer (`rule_based_categorize` / `auto_categorize`) -/

/-- `CATEGORY_KEYWORDS` (dict insertion order preserved). -/
def CATEGORY_KEYWORDS : List (Str × List Str) :=
  [("通信費".toList,
    ["携帯".toList, "Wi-Fi".toList, "プロバイダ".toList, "サーバー".toList,
     "ドメイン".toList, "SIM".toList]),
   ("旅費交通費".toList,
    ["電車".toList, "バス".toList, "タクシー".toList, "新幹線".toList,
     "飛行機".toList, "ETC".toList, "Suica".toList, "PASMO".toList]),
   ("消耗品費".toList,
    ["文房具".toList, "インク".toList, "USB".toList, "ケーブル".toList,
     "マウス".toList, "キーボード".toList]),
   ("接待交際費".toList,
    ["会食".toList, "お中元".toList, "お歳暮".toList, "慶弔".toList, "贈答".toList]),
   ("会議費".toList,
    ["カフェ".toList, "スタバ".toList, "ドトール".toList, "打ち合わせ".toList]),
   ("地代家賃".toList,
    ["事務所".toList, "コワーキング".toList, "レンタルオフィス".toList]),
   ("水道光熱費".toList,
    ["電気".toList, "ガス".toList, "水道".toList, "東京電力".toList, "東京ガス".toList]),
   ("広告宣伝費".toList,
    ["Google広告".toList, "SNS広告".toList, "名刺".toList, "チラシ".toList]),
   ("外注費".toList,
    ["デザイン依頼".toList, "開発依頼".toList, "翻訳".toList, "Fiverr".toList,
     "Lancers".toList]),
   ("新聞図書費".toList,
    ["書籍".toList, "Kindle".toList, "技術書".toList, "サブスク".toList]),
   ("研修費".toList,
    ["セミナー".toList, "勉強会".toList, "Udemy".toList, "オンライン講座".toList]),
   ("雑費".toList, [])]

def keywordHit (kws : List Str) (haystack : Str) : Bool :=
  kws.any (fun kw => decide (pyLower kw <:+: haystack))

def findKeyword : List (Str × List Str) → Str → Option Str
  | [], _ => none
  | (cat, kws) :: rest, haystack =>
      if keywordHit kws haystack then some cat else findKeyword rest haystack

/-- `ExpenseManager.rule_based_categorize`. -/
def rule_based_categorize (store_name items_text : Str) : Option (Str × Option Str) :=
  let haystack := pyLower (store_name ++ ' ' :: items_text)
  (findKeyword CATEGORY_KEYWORDS haystack).map (fun cat => (cat, none))

/-- `" ".join(item.get("name", "") for item in items if item.get("name"))`
(items are modelled by their names). -/
def joinItems (items : List Str) : Str :=
  List.intercalate [' '] (items.filter (fun n => !(n.isEmpty)))

/-- Stage 2 of `auto_categorize`: most recent expense with the same store
name; reuse its category when non-empty (an empty-string subcategory is
normalized to `none` by the `or None` idiom). -/
def historyCategorize (st : DBState) (store_name : Str) : Option (Str × Option Str) :=
  match get_expenses_by_store st (pyStrip store_name) 1 with
  | [] => none
  | e :: _ =>
      if e.category = [] then none
      else some (e.category,
        match e.subcategory with
        | none => none
        | some s => if s = [] then none else some s)

/-- The category oracle: given the store name and item summary, `none` models
any stage-3 failure (network error, missing/garbled JSON), `some (cat, sub)`
a successfully parsed response. -/
abbrev CatLLM := Str → Str → Option (Str × Option Str)

def defaultCategory : Str × Option Str := ("雑費".toList, none)

/-- `ExpenseManager.auto_categorize`: keyword rules → store-name history →
LLM fallback (accepted only when the category is a known key), else `雑費`. -/
def auto_categorize (st : DBState) (llm : CatLLM) (store_name : Str)
    (items : List Str) : Str × Option Str :=
  let items_text := joinItems items
  match rule_based_categorize store_name items_text with
  | some r => r
  | none =>
    match historyCategorize st store_name with
    | some r => r
    | none =>
      let items_summary := if items_text = [] then "（品目不明）".toList
                           else items_text.take 200
      match llm store_name items_summary with
      | some (cat, sub) =>
          if CATEGORY_KEYWORDS.any (fun p => decide (p.1 = cat)) then (cat, sub)
          else defaultCategory
      | none => defaultCategory

/-! ## Operations and reachable states -/

inductive Op where
  | addExp (date store_name : Str) (amount : Int) (category : Str)
      (subcategory : Option Str)
  | importCsv (rows : List CsvRow)
  | reconcile (llm : LLM) (cf : CF)

def applyOp (st : DBState) : Op → DBState
  | .addExp date store amount category subcategory =>
      (save_expense st date store amount category subcategory).2
  | .importCsv rows => (import_moneyforward_csv st rows).1.1
  | .reconcile llm cf => (match_with_moneyforward llm cf st).st

def runOps (st : DBState) (ops : List Op) : DBState := ops.foldl applyOp st

/-- States reachable from the empty database by expense creation, CSV import
and reconciliation passes. -/
def Reachable (st : DBState) : Prop := ∃ ops, runOps initState ops = st

/-! ## Basic lemmas about the sort and the queries -/

theorem insertIn_perm (le : α → α → Bool) (x : α) (l : List α) :
    (insertIn le x l).Perm (x :: l) := by
  induction l with
  | nil => simp [insertIn]
  | cons y ys ih =>
      simp only [insertIn]
      split
      · exact List.Perm.refl _
      · exact ((ih.cons y).trans (List.Perm.swap x y ys))

theorem orderBy_perm (le : α → α → Bool) (l : List α) : (orderBy le l).Perm l := by
  induction l with
  | nil => simp [orderBy]
  | cons x xs ih => exact (insertIn_perm le x (orderBy le xs)).trans (ih.cons x)

theorem mem_orderBy {le : α → α → Bool} {l : List α} {a : α} :
    a ∈ orderBy le l ↔ a ∈ l := (orderBy_perm le l).mem_iff

/-- Predicates enforced by both candidate queries' WHERE clauses. -/
def GoodRow (t : MFTransaction) : Prop :=
  t.matched_expense_id = none ∧ t.is_transfer = 0 ∧ t.is_calculation_target = 1 ∧
  t.amount < 0

theorem mem_range_query {st : DBState} {a b : Str} {amt : Nat} {t : MFTransaction}
    (h : t ∈ get_mf_candidates_by_range st a b amt) :
    t ∈ st.mfTxs ∧ GoodRow t ∧ t.amount.natAbs = amt := by
  have h1 := (List.take_sublist 10 _).subset h
  have h2 := mem_orderBy.1 h1
  have h3 := List.mem_filter.1 h2
  refine ⟨h3.1, ?_⟩
  have := h3.2
  simp only [Bool.and_eq_true, decide_eq_true_eq] at this
  exact ⟨⟨by tauto, by tauto, by tauto, by tauto⟩, by tauto⟩

theorem mem_amount_query {st : DBState} {amt : Nat} {ids : List Str} {t : MFTransaction}
    (h : t ∈ get_mf_candidates_by_amount st amt ids) :
    t ∈ st.mfTxs ∧ GoodRow t ∧ t.amount.natAbs = amt := by
  have h0 := (List.mem_filter.1 h).1
  have h1 := (List.take_sublist 10 _).subset h0
  have h2 := mem_orderBy.1 h1
  have h3 := List.mem_filter.1 h2
  refine ⟨h3.1, ?_⟩
  have := h3.2
  simp only [Bool.and_eq_true, decide_eq_true_eq] at this
  exact ⟨⟨by tauto, by tauto, by tauto, by tauto⟩, by tauto⟩

theorem mem_in_range_query {st : DBState} {d : Str} {amt : Nat} {k : Int}
    {t : MFTransaction} (h : t ∈ get_mf_candidates_in_range st d amt k) :
    t ∈ st.mfTxs ∧ GoodRow t ∧ t.amount.natAbs = amt := by
  unfold get_mf_candidates_in_range at h
  split at h
  · simp at h
  · exact mem_range_query h

theorem range_query_len (st : DBState) (a b : Str) (amt : Nat) :
    (get_mf_candidates_by_range st a b amt).length ≤ 10 := by
  have := List.length_take 10
    (orderBy mfDateDesc (st.mfTxs.filter (fun t =>
      strLe a t.date && strLe t.date b &&
      decide (t.amount.natAbs = amt) && decide (t.amount < 0) &&
      decide (t.matched_expense_id = none) &&
      decide (t.is_transfer = 0) && decide (t.is_calculation_target = 1))))
  calc (get_mf_candidates_by_range st a b amt).length
      = min 10 _ := this
    _ ≤ 10 := Nat.min_le_left _ _

theorem amount_query_len (st : DBState) (amt : Nat) (ids : List Str) :
    (get_mf_candidates_by_amount st amt ids).length ≤ 10 := by
  unfold get_mf_candidates_by_amount
  refine le_trans (List.length_filter_le _ _) ?_
  calc _ = min 10 _ := List.length_take 10 _
    _ ≤ 10 := Nat.min_le_left _ _

theorem mem_unmatched {st : DBState} {e : Expense} (h : e ∈ get_unmatched_expenses st) :
    e ∈ st.expenses ∧ e.moneyforward_matched = 0 := by
  have h1 := (List.take_sublist 100 _).subset h
  have h2 := mem_orderBy.1 h1
  have h3 := List.mem_filter.1 h2
  exact ⟨h3.1, by simpa using h3.2⟩

/-! ## Database invariants -/

def MfIdsNodup (st : DBState) : Prop := (st.mfTxs.map (fun t => t.mf_id)).Nodup

def ExpIdsNodup (st : DBState) : Prop := (st.expenses.map (fun e => e.id)).Nodup

def IdsBelowNext (st : DBState) : Prop := ∀ e ∈ st.expenses, e.id < st.nextExpenseId

/-- Every matched ledger row has a witnessing expense carrying the link back. -/
def MatchedConsistent (st : DBState) : Prop :=
  ∀ t ∈ st.mfTxs, ∀ eid : Nat, t.matched_expense_id = some eid →
    ∃ e ∈ st.expenses, e.id = eid ∧ e.moneyforward_matched = 1 ∧
      e.moneyforward_id = some t.mf_id

def DBInv (st : DBState) : Prop :=
  MfIdsNodup st ∧ ExpIdsNodup st ∧ IdsBelowNext st ∧ MatchedConsistent st

theorem inv_init : DBInv initState := by
  refine ⟨List.nodup_nil, List.nodup_nil, ?_, ?_⟩ <;> intro e he <;> simp [initState] at he

theorem nodup_map_sorted_query (f : β → α) {l : List β} (h : (l.map f).Nodup)
    (p : β → Bool) (le : β → β → Bool) (n : Nat) :
    (((orderBy le (l.filter p)).take n).map f).Nodup := by
  have h1 : ((l.filter p).map f).Nodup := ((List.filter_sublist _).map _).nodup h
  have h2 := ((orderBy_perm le (l.filter p)).map f).nodup_iff.2 h1
  exact ((List.take_sublist n _).map _).nodup h2

theorem unmatched_ids_nodup {st : DBState} (h : ExpIdsNodup st) :
    ((get_unmatched_expenses st).map (fun e => e.id)).Nodup := by
  unfold get_unmatched_expenses
  exact nodup_map_sorted_query _ h _ _ _

theorem range_query_ids_nodup {st : DBState} (h : MfIdsNodup st) (a b : Str) (amt : Nat) :
    ((get_mf_candidates_by_range st a b amt).map (fun t => t.mf_id)).Nodup := by
  unfold get_mf_candidates_by_range
  exact nodup_map_sorted_query _ h _ _ _

theorem amount_query_ids_nodup {st : DBState} (h : MfIdsNodup st) (amt : Nat)
    (ids : List Str) :
    ((get_mf_candidates_by_amount st amt ids).map (fun t => t.mf_id)).Nodup := by
  unfold get_mf_candidates_by_amount
  exact ((List.filter_sublist _).map _).nodup (nodup_map_sorted_query _ h _ _ _)

theorem in_range_query_ids_nodup {st : DBState} (h : MfIdsNodup st) (d : Str)
    (amt : Nat) (k : Int) :
    ((get_mf_candidates_in_range st d amt k).map (fun t => t.mf_id)).Nodup := by
  unfold get_mf_candidates_in_range
  split
  · simp
  · exact range_query_ids_nodup h _ _ _

/-! ## Lemmas about `match_expense_to_mf` -/

theorem updExp_id (i : Nat) (m : Str) (e : Expense) : (updExp i m e).id = e.id := by
  unfold updExp; split <;> rfl

theorem updExp_of_ne {i : Nat} {m : Str} {e : Expense} (h : e.id ≠ i) :
    updExp i m e = e := by
  unfold updExp; split
  · exact absurd (by assumption) h
  · rfl

theorem updTx_mf_id (i : Nat) (m : Str) (t : MFTransaction) :
    (updTx i m t).mf_id = t.mf_id := by
  unfold updTx; split <;> rfl

theorem updTx_of_ne {i : Nat} {m : Str} {t : MFTransaction} (h : t.mf_id ≠ m) :
    updTx i m t = t := by
  unfold updTx; split
  · exact absurd (by assumption) h
  · rfl

theorem match_mem_expenses_ne {st : DBState} {e' : Expense} {i : Nat} {m : Str}
    (h : e' ∈ st.expenses) (hne : e'.id ≠ i) :
    e' ∈ (match_expense_to_mf st i m).expenses := by
  have := List.mem_map_of_mem (updExp i m) h
  rwa [updExp_of_ne hne] at this

theorem match_mem_mfTxs_ne {st : DBState} {t : MFTransaction} {i : Nat} {m : Str}
    (h : t ∈ st.mfTxs) (hne : t.mf_id ≠ m) :
    t ∈ (match_expense_to_mf st i m).mfTxs := by
  have := List.mem_map_of_mem (updTx i m) h
  rwa [updTx_of_ne hne] at this

theorem match_expenses_ids (st : DBState) (i : Nat) (m : Str) :
    (match_expense_to_mf st i m).expenses.map (fun e => e.id) =
      st.expenses.map (fun e => e.id) := by
  show (st.expenses.map (updExp i m)).map (fun e => e.id) = _
  rw [List.map_map]
  exact List.map_congr_left (fun e _ => updExp_id i m e)

theorem match_mfTxs_ids (st : DBState) (i : Nat) (m : Str) :
    (match_expense_to_mf st i m).mfTxs.map (fun t => t.mf_id) =
      st.mfTxs.map (fun t => t.mf_id) := by
  show (st.mfTxs.map (updTx i m)).map (fun t => t.mf_id) = _
  rw [List.map_map]
  exact List.map_congr_left (fun t _ => updTx_mf_id i m t)

theorem match_nextExpenseId (st : DBState) (i : Nat) (m : Str) :
    (match_expense_to_mf st i m).nextExpenseId = st.nextExpenseId := rfl

/-- A certain-match commit as the candidate loop performs it: the expense is
a currently-unmatched row of the table and the ledger row was fetched by a
candidate query (so it is an unmatched, non-transfer, calculation-target
spending row of the current state). -/
def ValidCommit (st : DBState) (e : Expense) (m : MFTransaction) : Prop :=
  e ∈ st.expenses ∧ e.moneyforward_matched = 0 ∧ m ∈ st.mfTxs ∧ GoodRow m

/-- Chains of certain-match commits performed during one reconciliation pass. -/
inductive CommitStar : DBState → DBState → Prop
  | refl (st : DBState) : CommitStar st st
  | step {st st' : DBState} (e : Expense) (m : MFTransaction) :
      ValidCommit st e m → CommitStar (match_expense_to_mf st e.id m.mf_id) st' →
      CommitStar st st'

theorem CommitStar.trans {s1 s2 s3 : DBState}
    (h1 : CommitStar s1 s2) (h2 : CommitStar s2 s3) : CommitStar s1 s3 := by
  induction h1 with
  | refl => exact h2
  | step e m hv _ ih => exact CommitStar.step e m hv (ih h2)

theorem dbinv_commit {st : DBState} {e : Expense} {m : MFTransaction}
    (hInv : DBInv st) (hv : ValidCommit st e m) :
    DBInv (match_expense_to_mf st e.id m.mf_id) := by
  obtain ⟨hMf, hExp, hNext, hCons⟩ := hInv
  obtain ⟨heMem, heUn, hmMem, hmGood⟩ := hv
  refine ⟨?_, ?_, ?_, ?_⟩
  · unfold MfIdsNodup
    rw [match_mfTxs_ids]; exact hMf
  · unfold ExpIdsNodup
    rw [match_expenses_ids]; exact hExp
  · intro e' he'
    obtain ⟨e0, he0, rfl⟩ := List.mem_map.1 he'
    rw [match_nextExpenseId, updExp_id]
    exact hNext e0 he0
  · intro t' ht' eid hmt
    obtain ⟨t0, ht0, rfl⟩ := List.mem_map.1 ht'
    by_cases hid : t0.mf_id = m.mf_id
    · have ht0m : t0 = m := List.inj_on_of_nodup_map hMf ht0 hmMem hid
      subst ht0m
      have : updTx e.id t0.mf_id t0 = { t0 with matched_expense_id := some e.id } := by
        unfold updTx; simp
      rw [this] at hmt ⊢
      have heid : eid = e.id := by
        injection hmt with h; exact h.symm
      subst heid
      refine ⟨updExp e.id t0.mf_id e, List.mem_map_of_mem _ heMem, ?_, ?_, ?_⟩
      · rw [updExp_id]
      · unfold updExp; simp
      · unfold updExp; simp
    · rw [updTx_of_ne hid] at hmt ⊢
      obtain ⟨w, hwMem, hwId, hwM, hwMf⟩ := hCons t0 ht0 eid hmt
      have hwNe : w.id ≠ e.id := by
        intro hEq
        have : w = e := List.inj_on_of_nodup_map hExp hwMem heMem hEq
        rw [this] at hwM
        rw [heUn] at hwM
        exact absurd hwM (by decide)
      refine ⟨updExp e.id m.mf_id w, List.mem_map_of_mem _ hwMem, ?_, ?_, ?_⟩ <;>
        rw [updExp_of_ne hwNe]
      · exact hwId
      · exact hwM
      · exact hwMf

theorem dbinv_commitStar {s1 s2 : DBState} (h : CommitStar s1 s2) (hInv : DBInv s1) :
    DBInv s2 := by
  induction h with
  | refl => exact hInv
  | step e m hv _ ih => exact ih (dbinv_commit hInv hv)

/-! ## Invariant preservation by expense creation and import -/

theorem dbinv_save_expense {st : DBState} (hInv : DBInv st)
    (date store : Str) (amount : Int) (category : Str) (subcategory : Option Str) :
    DBInv (save_expense st date store amount category subcategory).2 := by
  obtain ⟨hMf, hExp, hNext, hCons⟩ := hInv
  refine ⟨hMf, ?_, ?_, ?_⟩
  · unfold ExpIdsNodup save_expense
    simp only [List.map_append, List.map_cons, List.map_nil]
    rw [List.nodup_append]
    refine ⟨hExp, List.nodup_singleton _, ?_⟩
    intro a ha hb
    obtain ⟨e0, he0, rfl⟩ := List.mem_map.1 ha
    simp only [List.mem_singleton] at hb
    exact absurd hb (Nat.ne_of_lt (hNext e0 he0))
  · intro e' he'
    unfold save_expense at he'
    simp only [List.mem_append, List.mem_singleton] at he'
    rcases he' with h | h
    · exact Nat.lt_succ_of_lt (hNext e' h)
    · rw [h]; exact Nat.lt_succ_self _
  · intro t ht eid hmt
    obtain ⟨w, hwMem, hw⟩ := hCons t ht eid hmt
    exact ⟨w, by unfold save_expense; simp only [List.mem_append]; exact Or.inl hwMem, hw⟩

theorem save_mf_mem {st : DBState} {t0 : MFTransaction} {t : MFTransaction}
    (h : t0 ∈ st.mfTxs) : t0 ∈ (save_mf_transaction st t).2.mfTxs := by
  unfold save_mf_transaction
  split
  · exact h
  · simp only [List.mem_append]; exact Or.inl h

theorem dbinv_save_mf {st : DBState} (hInv : DBInv st) {t : MFTransaction}
    (hNone : t.matched_expense_id = none) :
    DBInv (save_mf_transaction st t).2 := by
  obtain ⟨hMf, hExp, hNext, hCons⟩ := hInv
  unfold save_mf_transaction
  split
  · exact ⟨hMf, hExp, hNext, hCons⟩
  · rename_i hAbsent
    refine ⟨?_, hExp, hNext, ?_⟩
    · unfold MfIdsNodup
      simp only [List.map_append, List.map_cons, List.map_nil]
      rw [List.nodup_append]
      refine ⟨hMf, List.nodup_singleton _, ?_⟩
      intro a ha hb
      obtain ⟨x, hx, rfl⟩ := List.mem_map.1 ha
      simp only [List.mem_singleton] at hb
      exact hAbsent (List.any_eq_true.2 ⟨x, hx, by simp [hb]⟩)
    · intro t' ht' eid hmt
      simp only [List.mem_append, List.mem_singleton] at ht'
      rcases ht' with h | h
      · exact hCons t' h eid hmt
      · rw [h] at hmt; rw [hNone] at hmt; exact absurd hmt (by simp)

theorem parseCsvRow_ok_matched_none {row : CsvRow} {t : MFTransaction}
    (h : parseCsvRow row = .ok t) : t.matched_expense_id = none := by
  unfold parseCsvRow at h
  by_cases h1 : pyStrip row.mf_id = []
  · rw [if_pos h1] at h; cases h
  · rw [if_neg h1] at h
    by_cases h2 : normalize_date (pyStrip row.date) = []
    · rw [if_pos h2] at h; cases h
    · rw [if_neg h2] at h
      cases hp : parse_amount (pyStrip row.amount) with
      | valueError => rw [hp] at h; cases h
      | overflowError => rw [hp] at h; cases h
      | ok amt => rw [hp] at h; injection h with h'; rw [← h']

/-- The importer only ever touches the database through insert-if-absent
(when the step does not abort). -/
theorem import_step_st (acc : DBState × ImportResult) (row : CsvRow) :
    ∀ acc', import_step acc row = some acc' →
      acc'.1 = acc.1 ∨
      ∃ t, parseCsvRow row = RowParse.ok t ∧
        acc'.1 = (save_mf_transaction acc.1 t).2 := by
  intro acc' hstep
  unfold import_step at hstep
  split at hstep
  · cases hstep
  · injection hstep with h'; rw [← h']; exact Or.inl rfl
  · injection hstep with h'; rw [← h']; exact Or.inl rfl
  · injection hstep with h'; rw [← h']; exact Or.inl rfl
  · rename_i t hrow
    refine Or.inr ⟨t, hrow, ?_⟩
    split at hstep
    · rename_i st' hsave
      injection hstep with h'
      rw [← h', hsave]
    · rename_i st' hsave
      injection hstep with h'
      rw [← h', hsave]

theorem dbinv_import_step {acc : DBState × ImportResult} (hInv : DBInv acc.1)
    {row : CsvRow} {acc' : DBState × ImportResult}
    (hstep : import_step acc row = some acc') : DBInv acc'.1 := by
  rcases import_step_st acc row acc' hstep with hs | ⟨t, hrow, hs⟩
  · rw [hs]; exact hInv
  · rw [hs]
    exact dbinv_save_mf hInv (parseCsvRow_ok_matched_none hrow)

theorem dbinv_import_run (rows : List CsvRow) :
    ∀ (acc : DBState × ImportResult), DBInv acc.1 →
      DBInv (import_run acc rows).1.1 := by
  induction rows with
  | nil => intro acc h; exact h
  | cons r rest ih =>
      intro acc h
      show DBInv (match import_step acc r with
        | none => (acc, true)
        | some acc' => import_run acc' rest).1.1
      cases hstep : import_step acc r with
      | none => exact h
      | some acc' => exact ih acc' (dbinv_import_step h hstep)

theorem dbinv_import {st : DBState} (hInv : DBInv st) (rows : List CsvRow) :
    DBInv (import_moneyforward_csv st rows).1.1 :=
  dbinv_import_run rows (st, ⟨0, 0, []⟩) hInv

theorem import_step_mfTxs_mono {acc : DBState × ImportResult} {t : MFTransaction}
    (hacc : t ∈ acc.1.mfTxs) {row : CsvRow} {acc' : DBState × ImportResult}
    (hstep : import_step acc row = some acc') : t ∈ acc'.1.mfTxs := by
  rcases import_step_st acc row acc' hstep with hs | ⟨t', _, hs⟩
  · rw [hs]; exact hacc
  · rw [hs]; exact save_mf_mem hacc

theorem import_run_mfTxs_mono {t : MFTransaction} (rows : List CsvRow) :
    ∀ (acc : DBState × ImportResult), t ∈ acc.1.mfTxs →
      t ∈ (import_run acc rows).1.1.mfTxs := by
  induction rows with
  | nil => intro acc h; exact h
  | cons r rest ih =>
      intro acc hacc
      show t ∈ (match import_step acc r with
        | none => (acc, true)
        | some acc' => import_run acc' rest).1.1.mfTxs
      cases hstep : import_step acc r with
      | none => exact hacc
      | some acc' => exact ih acc' (import_step_mfTxs_mono hacc hstep)

theorem import_mfTxs_mono {st : DBState} {t : MFTransaction} (rows : List CsvRow)
    (h : t ∈ st.mfTxs) : t ∈ (import_moneyforward_csv st rows).1.1.mfTxs :=
  import_run_mfTxs_mono rows (st, ⟨0, 0, []⟩) h

/-! ## The candidate loop: single-step characterization -/

theorem applyCandDecision_cases (cf : CF) (e : Expense) (mf : MFTransaction)
    (ls : ExpLoopState) (fIds : List Str) (sLog : List SimCall) (cond : Bool)
    (h : ls.certain = false) :
    ((applyCandDecision cf e mf ls fIds sLog cond).certain = false ∧
     (applyCandDecision cf e mf ls fIds sLog cond).st = ls.st ∧
     (applyCandDecision cf e mf ls fIds sLog cond).commits = ls.commits ∧
     ((applyCandDecision cf e mf ls fIds sLog cond).attempts = ls.attempts ∨
      ((applyCandDecision cf e mf ls fIds sLog cond).attempts =
          ls.attempts ++ [(e.id, mf.mf_id)] ∧ cf e.id mf.mf_id = true)) ∧
     (applyCandDecision cf e mf ls fIds sLog cond).likely = ls.likely ++ [mf]) ∨
    ((applyCandDecision cf e mf ls fIds sLog cond).certain = true ∧
     (applyCandDecision cf e mf ls fIds sLog cond).st =
        match_expense_to_mf ls.st e.id mf.mf_id ∧
     (applyCandDecision cf e mf ls fIds sLog cond).commits =
        ls.commits ++ [(e.id, mf)] ∧
     (applyCandDecision cf e mf ls fIds sLog cond).attempts =
        ls.attempts ++ [(e.id, mf.mf_id)] ∧
     (applyCandDecision cf e mf ls fIds sLog cond).likely = ls.likely ∧
     cf e.id mf.mf_id = false) := by
  unfold applyCandDecision
  by_cases hc : cond = true
  · rw [if_pos hc]
    by_cases hcf : cf e.id mf.mf_id = true
    · rw [if_pos hcf]
      exact Or.inl ⟨h, rfl, rfl, Or.inr ⟨rfl, hcf⟩, rfl⟩
    · rw [if_neg hcf]
      exact Or.inr ⟨rfl, rfl, rfl, rfl, rfl, Bool.of_not_eq_true hcf⟩
  · rw [if_neg hc]
    exact Or.inl ⟨h, rfl, rfl, Or.inl rfl, rfl⟩

theorem processCand_cases (llm : LLM) (cf : CF) (e : Expense) (ls : ExpLoopState)
    (mf : MFTransaction) (h : ls.certain = false) :
    ((processCand llm cf e ls mf).certain = false ∧
     (processCand llm cf e ls mf).st = ls.st ∧
     (processCand llm cf e ls mf).commits = ls.commits ∧
     ((processCand llm cf e ls mf).attempts = ls.attempts ∨
      ((processCand llm cf e ls mf).attempts = ls.attempts ++ [(e.id, mf.mf_id)] ∧
        cf e.id mf.mf_id = true)) ∧
     (processCand llm cf e ls mf).likely = ls.likely ++ [mf]) ∨
    ((processCand llm cf e ls mf).certain = true ∧
     (processCand llm cf e ls mf).st = match_expense_to_mf ls.st e.id mf.mf_id ∧
     (processCand llm cf e ls mf).commits = ls.commits ++ [(e.id, mf)] ∧
     (processCand llm cf e ls mf).attempts = ls.attempts ++ [(e.id, mf.mf_id)] ∧
     (processCand llm cf e ls mf).likely = ls.likely ∧
     cf e.id mf.mf_id = false) := by
  show _ ∨ _
  unfold processCand
  exact applyCandDecision_cases cf e mf ls _ _ _ h

theorem applyCandDecision_frozen (cf : CF) (e : Expense) (mf : MFTransaction)
    (ls : ExpLoopState) (fIds : List Str) (sLog : List SimCall) (cond : Bool)
    (hc : cond = false) :
    (applyCandDecision cf e mf ls fIds sLog cond).certain = ls.certain ∧
    (applyCandDecision cf e mf ls fIds sLog cond).st = ls.st ∧
    (applyCandDecision cf e mf ls fIds sLog cond).commits = ls.commits ∧
    (applyCandDecision cf e mf ls fIds sLog cond).attempts = ls.attempts ∧
    (applyCandDecision cf e mf ls fIds sLog cond).likely = ls.likely ++ [mf] := by
  unfold applyCandDecision
  rw [if_neg (by rw [hc]; exact Bool.false_ne_true)]
  exact ⟨rfl, rfl, rfl, rfl, rfl⟩

theorem processCand_frozen (llm : LLM) (cf : CF) (e : Expense) (ls : ExpLoopState)
    (mf : MFTransaction) (h : ls.certain = true) :
    (processCand llm cf e ls mf).certain = true ∧
    (processCand llm cf e ls mf).st = ls.st ∧
    (processCand llm cf e ls mf).commits = ls.commits ∧
    (processCand llm cf e ls mf).attempts = ls.attempts ∧
    (processCand llm cf e ls mf).likely = ls.likely ++ [mf] := by
  unfold processCand
  have := applyCandDecision_frozen cf e mf ls (ls.foundIds ++ [mf.mf_id])
    (ls.simLog ++ (if partial_match_score e.store_name mf.content then (true, [])
      else simCheckWithLog llm e.store_name mf.content ls.certain).2)
    (decide (dayDeltaOf mf.date e.date ≤ 1) &&
      (if partial_match_score e.store_name mf.content then (true, [])
        else simCheckWithLog llm e.store_name mf.content ls.certain).1 && !ls.certain)
    (by rw [h]; simp)
  exact ⟨this.1.trans h, this.2.1, this.2.2.1, this.2.2.2.1, this.2.2.2.2⟩

/-! ## The candidate loop: whole-list characterization -/

theorem processCands_frozen (llm : LLM) (cf : CF) (e : Expense) :
    ∀ (cands : List MFTransaction) (ls : ExpLoopState), ls.certain = true →
      (processCands llm cf e ls cands).certain = true ∧
      (processCands llm cf e ls cands).st = ls.st ∧
      (processCands llm cf e ls cands).commits = ls.commits ∧
      (processCands llm cf e ls cands).attempts = ls.attempts ∧
      ∃ lk, (processCands llm cf e ls cands).likely = ls.likely ++ lk ∧
        ∀ x ∈ lk, x ∈ cands := by
  intro cands
  induction cands with
  | nil =>
      intro ls h
      exact ⟨h, rfl, rfl, rfl, [], by simp [processCands], by simp⟩
  | cons mf rest ih =>
      intro ls h
      obtain ⟨h1, h2, h3, h4, h5⟩ := processCand_frozen llm cf e ls mf h
      obtain ⟨g1, g2, g3, g4, lk, glk, glkmem⟩ := ih (processCand llm cf e ls mf) h1
      refine ⟨g1, g2.trans h2, g3.trans h3, g4.trans h4, mf :: lk, ?_, ?_⟩
      · show (processCands llm cf e (processCand llm cf e ls mf) rest).likely = _
        rw [glk, h5, List.append_assoc]
        rfl
      · intro x hx
        rcases hx with _ | hx
        · exact List.mem_cons_self mf rest
        · exact List.mem_cons_of_mem mf (glkmem x (by assumption))

theorem processCands_master (llm : LLM) (cf : CF) (e : Expense) :
    ∀ (cands : List MFTransaction) (ls : ExpLoopState), ls.certain = false →
      (((processCands llm cf e ls cands).certain = false ∧
        (processCands llm cf e ls cands).st = ls.st ∧
        (processCands llm cf e ls cands).commits = ls.commits) ∨
       ((processCands llm cf e ls cands).certain = true ∧
        ∃ m ∈ cands,
          (processCands llm cf e ls cands).st = match_expense_to_mf ls.st e.id m.mf_id ∧
          (processCands llm cf e ls cands).commits = ls.commits ++ [(e.id, m)])) ∧
      (∃ lk, (processCands llm cf e ls cands).likely = ls.likely ++ lk ∧
        ∀ x ∈ lk, x ∈ cands) ∧
      (∃ at_, (processCands llm cf e ls cands).attempts = ls.attempts ++ at_ ∧
        (∀ p ∈ at_, p.1 = e.id) ∧
        List.Sublist (at_.map (fun p => p.2)) (cands.map (fun m => m.mf_id))) ∧
      (∀ p ∈ (processCands llm cf e ls cands).attempts, p ∉ ls.attempts →
        cf p.1 p.2 = true →
        ∃ x ∈ (processCands llm cf e ls cands).likely, x.mf_id = p.2) := by
  intro cands
  induction cands with
  | nil =>
      intro ls h
      refine ⟨Or.inl ⟨h, rfl, rfl⟩, ⟨[], by simp [processCands], by simp⟩,
        ⟨[], by simp [processCands], by simp, List.nil_sublist _⟩, ?_⟩
      intro p hp hnp _
      exact absurd hp hnp
  | cons mf rest ih =>
      intro ls h
      show (((processCands llm cf e (processCand llm cf e ls mf) rest).certain = false ∧
          (processCands llm cf e (processCand llm cf e ls mf) rest).st = ls.st ∧
          (processCands llm cf e (processCand llm cf e ls mf) rest).commits = ls.commits) ∨
        ((processCands llm cf e (processCand llm cf e ls mf) rest).certain = true ∧
          ∃ m ∈ mf :: rest,
            (processCands llm cf e (processCand llm cf e ls mf) rest).st =
              match_expense_to_mf ls.st e.id m.mf_id ∧
            (processCands llm cf e (processCand llm cf e ls mf) rest).commits =
              ls.commits ++ [(e.id, m)])) ∧
        (∃ lk, (processCands llm cf e (processCand llm cf e ls mf) rest).likely =
            ls.likely ++ lk ∧ ∀ x ∈ lk, x ∈ mf :: rest) ∧
        (∃ at_, (processCands llm cf e (processCand llm cf e ls mf) rest).attempts =
            ls.attempts ++ at_ ∧ (∀ p ∈ at_, p.1 = e.id) ∧
            List.Sublist (at_.map (fun p => p.2)) ((mf :: rest).map (fun m => m.mf_id))) ∧
        (∀ p ∈ (processCands llm cf e (processCand llm cf e ls mf) rest).attempts,
          p ∉ ls.attempts → cf p.1 p.2 = true →
          ∃ x ∈ (processCands llm cf e (processCand llm cf e ls mf) rest).likely,
            x.mf_id = p.2)
      rcases processCand_cases llm cf e ls mf h with
        ⟨h1, h2, h3, h4, h5⟩ | ⟨h1, h2, h3, h4, h5, h6⟩
      · -- no commit at this candidate; recurse with certain still false
        obtain ⟨gDich, ⟨lk, glk, glkmem⟩, ⟨at_, gat, gatid, gatsub⟩, gfb⟩ :=
          ih (processCand llm cf e ls mf) h1
        refine ⟨?_, ⟨mf :: lk, ?_, ?_⟩, ?_, ?_⟩
        · rcases gDich with ⟨g1, g2, g3⟩ | ⟨g1, m, hm, g2, g3⟩
          · exact Or.inl ⟨g1, g2.trans h2, g3.trans h3⟩
          · exact Or.inr ⟨g1, m, List.mem_cons_of_mem mf hm,
              by rw [g2, h2], by rw [g3, h3]⟩
        · rw [glk, h5, List.append_assoc]; rfl
        · intro x hx
          rcases hx with _ | hx
          · exact List.mem_cons_self mf rest
          · exact List.mem_cons_of_mem mf (glkmem x (by assumption))
        · rcases h4 with h4 | ⟨h4, hcf⟩
          · exact ⟨at_, by rw [gat, h4], gatid,
              gatsub.trans (List.sublist_cons_self _ _)⟩
          · refine ⟨(e.id, mf.mf_id) :: at_, ?_, ?_, ?_⟩
            · rw [gat, h4, List.append_assoc]; rfl
            · intro p hp
              rcases hp with _ | hp
              · rfl
              · exact gatid p (by assumption)
            · exact List.Sublist.cons₂ _ gatsub
        · intro p hp hnp hcfp
          by_cases hmem : p ∈ (processCand llm cf e ls mf).attempts
          · -- p must be the new attempt of this step
            rcases h4 with h4 | ⟨h4, _⟩
            · rw [h4] at hmem; exact absurd hmem hnp
            · rw [h4, List.mem_append] at hmem
              rcases hmem with hmem | hmem
              · exact absurd hmem hnp
              · have hpe : p = (e.id, mf.mf_id) := by simpa using hmem
                refine ⟨mf, ?_, by rw [hpe]⟩
                rw [glk, h5, List.append_assoc]
                exact List.mem_append.2 (Or.inr (List.mem_append.2 (Or.inl
                  (List.mem_singleton.2 rfl))))
          · exact gfb p hp hmem hcfp
      · -- certain commit at this candidate; the rest of the scan is frozen
        obtain ⟨g1, g2, g3, g4, lk, glk, glkmem⟩ :=
          processCands_frozen llm cf e rest (processCand llm cf e ls mf) h1
        refine ⟨Or.inr ⟨g1, mf, List.mem_cons_self mf rest,
            by rw [g2, h2], by rw [g3, h3]⟩,
          ⟨lk, by rw [glk, h5], fun x hx => List.mem_cons_of_mem mf (glkmem x hx)⟩,
          ⟨[(e.id, mf.mf_id)], by rw [g4, h4], by simp, ?_⟩, ?_⟩
        · simp
        · intro p hp hnp hcfp
          rw [g4, h4, List.mem_append] at hp
          rcases hp with hp | hp
          · exact absurd hp hnp
          · have hpe : p = (e.id, mf.mf_id) := by simpa using hp
            rw [hpe] at hcfp
            exact absurd hcfp (by rw [h6]; exact Bool.false_ne_true)

/-! ## Per-expense characterization of the reconciliation loop body -/

theorem processExpense_spec (llm : LLM) (cf : CF) (st : DBState) (e : Expense) :
    ((((processExpense llm cf st e).st = st ∧ (processExpense llm cf st e).commits = [] ∧
       ∃ entry, (processExpense llm cf st e).entry = some entry) ∨
      (∃ m, m ∈ st.mfTxs ∧ GoodRow m ∧
        (processExpense llm cf st e).st = match_expense_to_mf st e.id m.mf_id ∧
        (processExpense llm cf st e).commits = [(e.id, m)] ∧
        (processExpense llm cf st e).entry = none))) ∧
    (∀ entry, (processExpense llm cf st e).entry = some entry → entry.expense = e ∧
      ∀ c ∈ entry.candidates, c.mf ∈ st.mfTxs ∧ GoodRow c.mf ∧
        c.mf.amount.natAbs = e.amount.natAbs) ∧
    (∀ p ∈ (processExpense llm cf st e).attempts, p.1 = e.id) ∧
    (MfIdsNodup st → (processExpense llm cf st e).attempts.Nodup) ∧
    (∀ p ∈ (processExpense llm cf st e).attempts, cf p.1 p.2 = true →
      (processExpense llm cf st e).commits = [] →
      ∃ entry, (processExpense llm cf st e).entry = some entry ∧
        ∃ c ∈ entry.candidates, c.mf.mf_id = p.2 ∧
          c.confidence = Confidence.likely) := by
  simp only [processExpense]
  set cands := get_mf_candidates_in_range st e.date e.amount.natAbs 2 with hcands
  set ls := processCands llm cf e ⟨st, [], false, [], [], [], []⟩ cands with hls
  obtain ⟨hDich, ⟨lk, hlk, hlkmem⟩, ⟨at_, hat, hatid, hatsub⟩, hfb⟩ :=
    processCands_master llm cf e cands ⟨st, [], false, [], [], [], []⟩ rfl
  rw [← hls] at hDich hlk hat hfb
  dsimp only at hDich hlk hat hfb
  simp only [List.nil_append] at hlk hat
  rcases hDich with ⟨h1, h2, h3⟩ | ⟨h1, m, hm, h2, h3⟩
  · -- no certain commit: an entry is emitted
    rw [if_neg (by rw [h1]; exact Bool.false_ne_true)]
    dsimp only
    refine ⟨Or.inl ⟨h2, h3, ⟨_, rfl⟩⟩, ?_, ?_, ?_, ?_⟩
    · intro entry hentry
      injection hentry with hentry
      rw [← hentry]
      refine ⟨rfl, ?_⟩
      intro c hc
      simp only [List.mem_append] at hc
      rcases hc with hc | hc
      · obtain ⟨x, hx, rfl⟩ := List.mem_map.1 hc
        have hx2 : x ∈ cands := by rw [hlk] at hx; exact hlkmem x hx
        have := mem_in_range_query (hcands ▸ hx2)
        exact ⟨this.1, this.2.1, this.2.2⟩
      · obtain ⟨x, hx, rfl⟩ := List.mem_map.1 hc
        have := mem_amount_query hx
        rw [h2] at this
        exact ⟨this.1, this.2.1, this.2.2⟩
    · intro p hp
      rw [hat] at hp
      exact hatid p hp
    · intro hnd
      rw [hat]
      have hnodup : (at_.map (fun p => p.2)).Nodup :=
        hatsub.nodup (hcands ▸ in_range_query_ids_nodup hnd e.date e.amount.natAbs 2)
      exact hnodup.of_map _
    · intro p hp hcfp _
      obtain ⟨x, hx, hxid⟩ := hfb p hp (by simp) hcfp
      refine ⟨_, rfl, ⟨x, Confidence.likely⟩, ?_, hxid, rfl⟩
      exact List.mem_append.2 (Or.inl (List.mem_map_of_mem _ hx))
  · -- certain commit: the expense is resolved silently
    rw [if_pos h1]
    dsimp only
    have hmProps := mem_in_range_query (hcands ▸ hm)
    refine ⟨Or.inr ⟨m, hmProps.1, hmProps.2.1, h2, h3, rfl⟩, ?_, ?_, ?_, ?_⟩
    · intro entry hentry; exact absurd hentry (by simp)
    · intro p hp
      rw [hat] at hp
      exact hatid p hp
    · intro hnd
      rw [hat]
      have hnodup : (at_.map (fun p => p.2)).Nodup :=
        hatsub.nodup (hcands ▸ in_range_query_ids_nodup hnd e.date e.amount.natAbs 2)
      exact hnodup.of_map _
    · intro p hp hcfp hcomm
      rw [h3] at hcomm
      exact absurd hcomm (by simp)

/-! ## Pass-level lemmas -/

theorem processExpenses_good (llm : LLM) (cf : CF) :
    ∀ (es : List Expense) (acc : PassAcc),
      (∀ entry ∈ acc.results, ∀ c ∈ entry.candidates, GoodRow c.mf) →
      (∀ p ∈ acc.commits, GoodRow p.2) →
      (∀ entry ∈ (processExpenses llm cf acc es).results, ∀ c ∈ entry.candidates,
        GoodRow c.mf) ∧
      (∀ p ∈ (processExpenses llm cf acc es).commits, GoodRow p.2) := by
  intro es
  induction es with
  | nil => intro acc h1 h2; exact ⟨h1, h2⟩
  | cons e rest ih =>
      intro acc h1 h2
      simp only [processExpenses]
      obtain ⟨hDich, hEntry, _, _, _⟩ := processExpense_spec llm cf acc.st e
      refine ih _ ?_ ?_
      · intro entry hentry c hc
        simp only [List.mem_append] at hentry
        rcases hentry with hentry | hentry
        · exact h1 entry hentry c hc
        · rcases hre : (processExpense llm cf acc.st e).entry with _ | en
          · rw [hre] at hentry; simp at hentry
          · rw [hre] at hentry
            simp only [List.mem_singleton] at hentry
            subst hentry
            exact ((hEntry entry hre).2 c hc).2.1
      · intro p hp
        simp only [List.mem_append] at hp
        rcases hp with hp | hp
        · exact h2 p hp
        · rcases hDich with ⟨_, hcomm, _⟩ | ⟨m, hmMem, hgood, hst2, hcomm, hen2⟩
          · rw [hcomm] at hp; simp at hp
          · rw [hcomm] at hp
            simp only [List.mem_singleton] at hp
            rw [hp]
            exact hgood

theorem pass_good (llm : LLM) (cf : CF) (st : DBState) :
    (∀ entry ∈ (match_with_moneyforward llm cf st).results, ∀ c ∈ entry.candidates,
      GoodRow c.mf) ∧
    (∀ p ∈ (match_with_moneyforward llm cf st).commits, GoodRow p.2) := by
  unfold match_with_moneyforward
  exact processExpenses_good llm cf _ _ (by intro entry h; simp at h)
    (by intro p h; simp at h)

theorem processExpenses_commits (llm : LLM) (cf : CF) :
    ∀ (es : List Expense) (acc : PassAcc),
      (es.map (fun e => e.id)).Nodup →
      (∀ x ∈ es, x.id ∉ acc.commits.map (fun p => p.1)) →
      (∀ x ∈ es, x.id ∉ acc.results.map (fun r => r.expense.id)) →
      (acc.commits.map (fun p => p.1)).Nodup →
      (∀ p ∈ acc.commits, p.1 ∉ acc.results.map (fun r => r.expense.id)) →
      ((processExpenses llm cf acc es).commits.map (fun p => p.1)).Nodup ∧
      (∀ p ∈ (processExpenses llm cf acc es).commits,
        p.1 ∉ (processExpenses llm cf acc es).results.map (fun r => r.expense.id)) := by
  intro es
  induction es with
  | nil => intro acc _ _ _ h4 h5; exact ⟨h4, h5⟩
  | cons e rest ih =>
      intro acc h1 h2 h3 h4 h5
      simp only [processExpenses]
      have hsplit : (∀ x ∈ rest, ¬x.id = e.id) ∧ (rest.map (fun x => x.id)).Nodup := by
        simpa using h1
      have hIdNotRest := hsplit.1
      have h1' := hsplit.2
      obtain ⟨hDich, hEntry, _, _, _⟩ := processExpense_spec llm cf acc.st e
      rcases hDich with ⟨hst, hcomm, en, hen⟩ | ⟨m, hmMem, hgood, hst, hcomm, hen⟩
      · -- entry emitted, no commit
        refine ih _ h1' ?_ ?_ ?_ ?_
        · intro x hx
          rw [hcomm, List.append_nil]
          exact h2 x (List.mem_cons_of_mem e hx)
        · intro x hx
          rw [hen]
          simp only [List.map_append, List.mem_append, List.map_cons, List.map_nil]
          rintro (hbad | hbad)
          · exact h3 x (List.mem_cons_of_mem e hx) hbad
          · simp only [List.mem_singleton] at hbad
            rw [(hEntry en hen).1] at hbad
            exact hIdNotRest x hx hbad
        · rw [hcomm, List.append_nil]; exact h4
        · intro p hp
          rw [hcomm, List.append_nil] at hp
          rw [hen]
          simp only [List.map_append, List.mem_append, List.map_cons, List.map_nil]
          rintro (hbad | hbad)
          · exact h5 p hp hbad
          · simp only [List.mem_singleton] at hbad
            rw [(hEntry en hen).1] at hbad
            exact h2 e (List.mem_cons_self e rest) (hbad ▸ List.mem_map_of_mem _ hp)
      · -- commit, no entry
        refine ih _ h1' ?_ ?_ ?_ ?_
        · intro x hx
          rw [hcomm]
          simp only [List.map_append, List.mem_append, List.map_cons, List.map_nil]
          rintro (hbad | hbad)
          · exact h2 x (List.mem_cons_of_mem e hx) hbad
          · simp only [List.mem_singleton] at hbad
            exact hIdNotRest x hx hbad
        · intro x hx
          rw [hen, List.append_nil]
          exact h3 x (List.mem_cons_of_mem e hx)
        · rw [hcomm]
          simp only [List.map_append, List.map_cons, List.map_nil]
          rw [List.nodup_append]
          refine ⟨h4, List.nodup_singleton _, ?_⟩
          intro a ha hb
          simp only [List.mem_singleton] at hb
          obtain ⟨p, hp, rfl⟩ := List.mem_map.1 ha
          exact h2 e (List.mem_cons_self e rest) (hb ▸ List.mem_map_of_mem _ hp)
        · intro p hp
          rw [hen, List.append_nil]
          rw [hcomm, List.mem_append] at hp
          rcases hp with hp | hp
          · exact h5 p hp
          · simp only [List.mem_singleton] at hp
            rw [hp]
            exact h3 e (List.mem_cons_self e rest)

theorem pass_commits (llm : LLM) (cf : CF) (st : DBState) (he : ExpIdsNodup st) :
    (((match_with_moneyforward llm cf st).commits.map (fun p => p.1)).Nodup) ∧
    (∀ p ∈ (match_with_moneyforward llm cf st).commits,
      p.1 ∉ (match_with_moneyforward llm cf st).results.map (fun r => r.expense.id)) := by
  unfold match_with_moneyforward
  exact processExpenses_commits llm cf _ _ (unmatched_ids_nodup he)
    (by intro x _ h; simp at h) (by intro x _ h; simp at h)
    List.nodup_nil (by intro p h; simp at h)

theorem match_mfIdsNodup {st : DBState} (h : MfIdsNodup st) (i : Nat) (m : Str) :
    MfIdsNodup (match_expense_to_mf st i m) := by
  unfold MfIdsNodup
  rw [match_mfTxs_ids]
  exact h

theorem processExpenses_attempts (llm : LLM) (cf : CF) :
    ∀ (es : List Expense) (acc : PassAcc),
      (es.map (fun e => e.id)).Nodup →
      MfIdsNodup acc.st →
      acc.attempts.Nodup →
      (∀ x ∈ es, ∀ p ∈ acc.attempts, p.1 ≠ x.id) →
      (∀ p ∈ acc.attempts, cf p.1 p.2 = true →
        p.1 ∉ acc.commits.map (fun q => q.1) →
        ∃ entry ∈ acc.results, entry.expense.id = p.1 ∧
          ∃ c ∈ entry.candidates, c.mf.mf_id = p.2 ∧
            c.confidence = Confidence.likely) →
      (∀ x ∈ es, x.id ∉ acc.commits.map (fun q => q.1)) →
      (processExpenses llm cf acc es).attempts.Nodup ∧
      (∀ p ∈ (processExpenses llm cf acc es).attempts, cf p.1 p.2 = true →
        p.1 ∉ (processExpenses llm cf acc es).commits.map (fun q => q.1) →
        ∃ entry ∈ (processExpenses llm cf acc es).results, entry.expense.id = p.1 ∧
          ∃ c ∈ entry.candidates, c.mf.mf_id = p.2 ∧
            c.confidence = Confidence.likely) := by
  intro es
  induction es with
  | nil => intro acc _ _ h3 _ h5 _; exact ⟨h3, h5⟩
  | cons e rest ih =>
      intro acc h1 h2 h3 h4 h5 h6
      simp only [processExpenses]
      have hsplit : (∀ x ∈ rest, ¬x.id = e.id) ∧ (rest.map (fun x => x.id)).Nodup := by
        simpa using h1
      obtain ⟨hDich, hEntry, hAtId, hAtNodup, hFb⟩ := processExpense_spec llm cf acc.st e
      have hstep_nodup : ((processExpense llm cf acc.st e).attempts).Nodup := hAtNodup h2
      have hdisj : ∀ p ∈ acc.attempts, ∀ q ∈ (processExpense llm cf acc.st e).attempts,
          p ≠ q := by
        intro p hp q hq hpq
        have : q.1 = e.id := hAtId q hq
        have hne := h4 e (List.mem_cons_self e rest) p hp
        rw [hpq] at hne
        exact hne this
      have hMf' : MfIdsNodup (processExpense llm cf acc.st e).st := by
        rcases hDich with ⟨hst, _, _⟩ | ⟨m, _, _, hst, _, _⟩
        · rw [hst]; exact h2
        · rw [hst]; exact match_mfIdsNodup h2 _ _
      refine ih _ hsplit.2 hMf' ?_ ?_ ?_ ?_
      · -- attempts of extended accumulator are nodup
        rw [List.nodup_append]
        exact ⟨h3, hstep_nodup, fun a ha hb => (hdisj a ha a hb) rfl⟩
      · -- per-pair freshness for the remaining expenses
        intro x hx p hp
        simp only [List.mem_append] at hp
        rcases hp with hp | hp
        · exact h4 x (List.mem_cons_of_mem e hx) p hp
        · rw [hAtId p hp]
          intro hbad
          exact hsplit.1 x hx hbad.symm
      · -- fallback property for the extended accumulator
        intro p hp hcf hnc
        simp only [List.mem_append] at hp
        rcases hp with hp | hp
        · -- an attempt of an earlier expense
          have hnc0 : p.1 ∉ acc.commits.map (fun q => q.1) := by
            intro hbad
            exact hnc (by
              simp only [List.map_append, List.mem_append]
              exact Or.inl hbad)
          obtain ⟨entry, hentry, hpe, c, hc, hcid, hconf⟩ := h5 p hp hcf hnc0
          exact ⟨entry, by simp only [List.mem_append]; exact Or.inl hentry,
            hpe, c, hc, hcid, hconf⟩
        · -- an attempt of this expense
          have hp1 : p.1 = e.id := hAtId p hp
          have hcommEmpty : (processExpense llm cf acc.st e).commits = [] := by
            rcases hDich with ⟨_, hcm, _⟩ | ⟨m, _, _, _, hcm, _⟩
            · exact hcm
            · exfalso
              apply hnc
              simp only [List.map_append, List.mem_append]
              refine Or.inr ?_
              rw [hcm]
              simp [hp1]
          obtain ⟨en, hen, c, hc, hcid, hconf⟩ := hFb p hp hcf hcommEmpty
          refine ⟨en, ?_, ?_, c, hc, hcid, hconf⟩
          · simp only [List.mem_append]
            refine Or.inr ?_
            rw [hen]
            exact List.mem_singleton.2 rfl
          · rw [(hEntry en hen).1, hp1]
      · -- remaining expenses still have no committed id
        intro x hx
        simp only [List.map_append, List.mem_append]
        rintro (hbad | hbad)
        · exact h6 x (List.mem_cons_of_mem e hx) hbad
        · rcases hDich with ⟨_, hcm, _⟩ | ⟨m, _, _, _, hcm, _⟩
          · rw [hcm] at hbad; simp at hbad
          · rw [hcm] at hbad
            simp only [List.map_cons, List.map_nil, List.mem_singleton] at hbad
            exact hsplit.1 x hx hbad

theorem pass_attempts (llm : LLM) (cf : CF) (st : DBState)
    (hm : MfIdsNodup st) (he : ExpIdsNodup st) :
    (match_with_moneyforward llm cf st).attempts.Nodup ∧
    (∀ p ∈ (match_with_moneyforward llm cf st).attempts, cf p.1 p.2 = true →
      p.1 ∉ (match_with_moneyforward llm cf st).commits.map (fun q => q.1) →
      ∃ entry ∈ (match_with_moneyforward llm cf st).results, entry.expense.id = p.1 ∧
        ∃ c ∈ entry.candidates, c.mf.mf_id = p.2 ∧
          c.confidence = Confidence.likely) := by
  unfold match_with_moneyforward
  exact processExpenses_attempts llm cf _ _ (unmatched_ids_nodup he) hm
    List.nodup_nil (by intro x _ p h; simp at h) (by intro p h; simp at h)
    (by intro x _ h; simp at h)

theorem processExpenses_commitStar (llm : LLM) (cf : CF) (st0 : DBState) :
    ∀ (es : List Expense) (acc : PassAcc),
      CommitStar st0 acc.st →
      (es.map (fun e => e.id)).Nodup →
      (∀ x ∈ es, x ∈ acc.st.expenses ∧ x.moneyforward_matched = 0) →
      (∀ entry ∈ acc.results, ∀ c ∈ entry.candidates,
        ∃ stMid, CommitStar st0 stMid ∧ c.mf ∈ stMid.mfTxs) →
      CommitStar st0 (processExpenses llm cf acc es).st ∧
      (∀ entry ∈ (processExpenses llm cf acc es).results, ∀ c ∈ entry.candidates,
        ∃ stMid, CommitStar st0 stMid ∧ c.mf ∈ stMid.mfTxs) := by
  intro es
  induction es with
  | nil => intro acc h1 _ _ h4; exact ⟨h1, h4⟩
  | cons e rest ih =>
      intro acc h1 h2 h3 h4
      simp only [processExpenses]
      have hsplit : (∀ x ∈ rest, ¬x.id = e.id) ∧ (rest.map (fun x => x.id)).Nodup := by
        simpa using h2
      obtain ⟨hDich, hEntry, _, _, _⟩ := processExpense_spec llm cf acc.st e
      rcases hDich with ⟨hst, hcm, en, hen⟩ | ⟨m, hmMem, hmGood, hst, hcm, hen⟩
      · -- no state change
        refine ih _ (by rw [hst]; exact h1) hsplit.2 ?_ ?_
        · intro x hx
          rw [hst]
          exact h3 x (List.mem_cons_of_mem e hx)
        · intro entry hentry c hc
          simp only [List.mem_append] at hentry
          rcases hentry with hentry | hentry
          · exact h4 entry hentry c hc
          · rw [hen] at hentry
            simp only [List.mem_singleton] at hentry
            subst hentry
            exact ⟨acc.st, h1, ((hEntry entry hen).2 c hc).1⟩
      · -- one valid commit
        have hvc : ValidCommit acc.st e m :=
          ⟨(h3 e (List.mem_cons_self e rest)).1, (h3 e (List.mem_cons_self e rest)).2,
            hmMem, hmGood⟩
        have h1' : CommitStar st0 (processExpense llm cf acc.st e).st := by
          rw [hst]
          exact h1.trans (CommitStar.step e m hvc (CommitStar.refl _))
        refine ih _ h1' hsplit.2 ?_ ?_
        · intro x hx
          rw [hst]
          refine ⟨match_mem_expenses_ne (h3 x (List.mem_cons_of_mem e hx)).1
            (fun hbad => hsplit.1 x hx hbad), (h3 x (List.mem_cons_of_mem e hx)).2⟩
        · intro entry hentry c hc
          simp only [List.mem_append] at hentry
          rcases hentry with hentry | hentry
          · exact h4 entry hentry c hc
          · rw [hen] at hentry; simp at hentry

theorem pass_commitStar (llm : LLM) (cf : CF) (st : DBState) (he : ExpIdsNodup st) :
    CommitStar st (match_with_moneyforward llm cf st).st ∧
    (∀ entry ∈ (match_with_moneyforward llm cf st).results, ∀ c ∈ entry.candidates,
      ∃ stMid, CommitStar st stMid ∧ c.mf ∈ stMid.mfTxs) := by
  unfold match_with_moneyforward
  refine processExpenses_commitStar llm cf st _ _ (CommitStar.refl st)
    (unmatched_ids_nodup he) ?_ (by intro entry h; simp at h)
  intro x hx
  exact mem_unmatched hx

theorem dbinv_pass (llm : LLM) (cf : CF) {st : DBState} (hInv : DBInv st) :
    DBInv (match_with_moneyforward llm cf st).st :=
  dbinv_commitStar (pass_commitStar llm cf st hInv.2.1).1 hInv

theorem dbinv_applyOp {st : DBState} (hInv : DBInv st) (op : Op) :
    DBInv (applyOp st op) := by
  cases op with
  | addExp date store amount category subcategory =>
      exact dbinv_save_expense hInv date store amount category subcategory
  | importCsv rows => exact dbinv_import hInv rows
  | reconcile llm cf => exact dbinv_pass llm cf hInv

theorem dbinv_runOps {st : DBState} (hInv : DBInv st) (ops : List Op) :
    DBInv (runOps st ops) := by
  induction ops generalizing st with
  | nil => exact hInv
  | cons op rest ih => exact ih (dbinv_applyOp hInv op)

theorem dbinv_reachable {st : DBState} (h : Reachable st) : DBInv st := by
  obtain ⟨ops, rfl⟩ := h
  exact dbinv_runOps inv_init ops

/-! ## Persistence of committed matches -/

/-- The row keyed by `i` is matched to `eid`. -/
def HasMatchedRow (st : DBState) (i : Str) (eid : Nat) : Prop :=
  ∃ t ∈ st.mfTxs, t.mf_id = i ∧ t.matched_expense_id = some eid

theorem matched_persists_commit {st : DBState} {e : Expense} {m : MFTransaction}
    (hnd : MfIdsNodup st) (hv : ValidCommit st e m) {i : Str} {eid : Nat}
    (h : HasMatchedRow st i eid) :
    HasMatchedRow (match_expense_to_mf st e.id m.mf_id) i eid := by
  obtain ⟨t, htMem, htId, htM⟩ := h
  have hne : t.mf_id ≠ m.mf_id := by
    intro hbad
    have : t = m := List.inj_on_of_nodup_map hnd htMem hv.2.2.1 hbad
    rw [this] at htM
    rw [hv.2.2.2.1] at htM
    exact absurd htM (by simp)
  exact ⟨t, match_mem_mfTxs_ne htMem hne, htId, htM⟩

theorem matched_persists_commitStar {s1 s2 : DBState} (h : CommitStar s1 s2)
    (hnd : MfIdsNodup s1) {i : Str} {eid : Nat} (hrow : HasMatchedRow s1 i eid) :
    HasMatchedRow s2 i eid := by
  induction h with
  | refl => exact hrow
  | step e m hv _ ih =>
      exact ih (by unfold MfIdsNodup; rw [match_mfTxs_ids]; assumption)
        (matched_persists_commit hnd hv hrow)

theorem matched_persists_applyOp {st : DBState} (hInv : DBInv st) (op : Op)
    {i : Str} {eid : Nat} (h : HasMatchedRow st i eid) :
    HasMatchedRow (applyOp st op) i eid := by
  obtain ⟨t, htMem, htId, htM⟩ := h
  cases op with
  | addExp date store amount category subcategory =>
      exact ⟨t, htMem, htId, htM⟩
  | importCsv rows => exact ⟨t, import_mfTxs_mono rows htMem, htId, htM⟩
  | reconcile llm cf =>
      exact matched_persists_commitStar (pass_commitStar llm cf st hInv.2.1).1
        hInv.1 ⟨t, htMem, htId, htM⟩

theorem matched_persists_runOps {st : DBState} (hInv : DBInv st) (ops : List Op)
    {i : Str} {eid : Nat} (h : HasMatchedRow st i eid) :
    HasMatchedRow (runOps st ops) i eid := by
  induction ops generalizing st with
  | nil => exact h
  | cons op rest ih =>
      exact ih (dbinv_applyOp hInv op) (matched_persists_applyOp hInv op h)

/-- A matched row is never surfaced as a candidate by a reconciliation pass. -/
theorem matched_not_candidate {st : DBState} (hInv : DBInv st) {i : Str} {eid : Nat}
    (h : HasMatchedRow st i eid) (llm : LLM) (cf : CF) :
    i ∉ candidateIds (match_with_moneyforward llm cf st).results := by
  intro hbad
  unfold candidateIds at hbad
  simp only [List.mem_flatMap, List.mem_map] at hbad
  obtain ⟨entry, hentry, c, hc, hcid⟩ := hbad
  obtain ⟨stMid, hstar, hcMem⟩ := (pass_commitStar llm cf st hInv.2.1).2 entry hentry c hc
  have hGood := (pass_good llm cf st).1 entry hentry c hc
  have hndMid : MfIdsNodup stMid := (dbinv_commitStar hstar hInv).1
  obtain ⟨t, htMem, htId, htM⟩ := matched_persists_commitStar hstar hInv.1 h
  have : c.mf = t := List.inj_on_of_nodup_map hndMid hcMem htMem (by rw [htId, hcid])
  have hcNone := hGood.1
  rw [this, htM] at hcNone
  exact absurd hcNone (by simp)

/-! ## Import idempotence -/

/-- The error entries a row list will produce (state-independent). -/
def rowErr (row : CsvRow) : List ImportErr :=
  match parseCsvRow row with
  | .badDate i raw => [.dateParse i raw]
  | .badAmount i raw => [.amountParse i raw]
  | _ => []

def errorsOf (rows : List CsvRow) : List ImportErr := rows.flatMap rowErr

theorem hasMfId_save {st : DBState} {i : Str} (t : MFTransaction)
    (h : hasMfId st i = true) : hasMfId (save_mf_transaction st t).2 i = true := by
  unfold save_mf_transaction
  split
  · exact h
  · unfold hasMfId at h ⊢
    simp only [List.any_append]
    rw [h]
    rfl

theorem hasMfId_save_self (st : DBState) (t : MFTransaction) :
    hasMfId (save_mf_transaction st t).2 t.mf_id = true := by
  unfold save_mf_transaction
  split
  · assumption
  · unfold hasMfId
    simp

theorem save_of_present {st : DBState} {t : MFTransaction}
    (h : hasMfId st t.mf_id = true) : save_mf_transaction st t = (false, st) := by
  unfold save_mf_transaction
  rw [if_pos h]

theorem import_step_skip {acc : DBState × ImportResult} {row : CsvRow}
    (h : parseCsvRow row = RowParse.emptyId) :
    import_step acc row =
      some (acc.1, { acc.2 with skipped := acc.2.skipped + 1 }) := by
  unfold import_step; rw [h]

theorem import_step_badDate {acc : DBState × ImportResult} {row : CsvRow} {i raw : Str}
    (h : parseCsvRow row = RowParse.badDate i raw) :
    import_step acc row =
      some (acc.1,
        { acc.2 with skipped := acc.2.skipped + 1,
                     errors := acc.2.errors ++ [ImportErr.dateParse i raw] }) := by
  unfold import_step; rw [h]

theorem import_step_badAmount {acc : DBState × ImportResult} {row : CsvRow} {i raw : Str}
    (h : parseCsvRow row = RowParse.badAmount i raw) :
    import_step acc row =
      some (acc.1,
        { acc.2 with skipped := acc.2.skipped + 1,
                     errors := acc.2.errors ++ [ImportErr.amountParse i raw] }) := by
  unfold import_step; rw [h]

theorem import_step_ok {acc : DBState × ImportResult} {row : CsvRow} {t : MFTransaction}
    (h : parseCsvRow row = RowParse.ok t) :
    import_step acc row =
      (match save_mf_transaction acc.1 t with
       | (true, st') => some (st', { acc.2 with imported := acc.2.imported + 1 })
       | (false, st') => some (st', { acc.2 with skipped := acc.2.skipped + 1 })) := by
  unfold import_step; rw [h]

theorem import_step_crash {acc : DBState × ImportResult} {row : CsvRow}
    (h : parseCsvRow row = RowParse.crashed) : import_step acc row = none := by
  unfold import_step; rw [h]

theorem isCrashRow_iff (row : CsvRow) :
    isCrashRow row = true ↔ parseCsvRow row = RowParse.crashed := by
  unfold isCrashRow
  cases h : parseCsvRow row <;> simp

theorem import_step_none_iff (acc : DBState × ImportResult) (row : CsvRow) :
    import_step acc row = none ↔ isCrashRow row = true := by
  unfold isCrashRow
  cases h : parseCsvRow row
  case emptyId => rw [import_step_skip h]; simp
  case badDate i raw => rw [import_step_badDate h]; simp
  case badAmount i raw => rw [import_step_badAmount h]; simp
  case crashed => rw [import_step_crash h]; simp
  case ok t =>
      rw [import_step_ok h]
      cases hs : save_mf_transaction acc.1 t with
      | mk b st' => cases b <;> simp

theorem preCrash_cons_crash {row : CsvRow} (rows : List CsvRow)
    (h : parseCsvRow row = RowParse.crashed) : preCrash (row :: rows) = [] := by
  unfold preCrash; rw [h]

theorem preCrash_cons_ok {row : CsvRow} (rows : List CsvRow)
    (h : isCrashRow row = false) :
    preCrash (row :: rows) = row :: preCrash rows := by
  unfold isCrashRow at h
  show (match parseCsvRow row with
    | RowParse.crashed => []
    | _ => row :: preCrash rows) = row :: preCrash rows
  cases hp : parseCsvRow row
  case crashed => rw [hp] at h; simp at h
  all_goals rfl

theorem hasMfId_import_step {acc : DBState × ImportResult} {i : Str}
    (h : hasMfId acc.1 i = true) {row : CsvRow} {acc' : DBState × ImportResult}
    (hstep : import_step acc row = some acc') : hasMfId acc'.1 i = true := by
  rcases import_step_st acc row acc' hstep with hs | ⟨t, _, hs⟩
  · rw [hs]; exact h
  · rw [hs]; exact hasMfId_save t h

theorem hasMfId_import_run {i : Str} (rows : List CsvRow) :
    ∀ acc : DBState × ImportResult, hasMfId acc.1 i = true →
      hasMfId (import_run acc rows).1.1 i = true := by
  induction rows with
  | nil => intro acc h; exact h
  | cons r rest ih =>
      intro acc h
      show hasMfId (match import_step acc r with
        | none => (acc, true)
        | some acc' => import_run acc' rest).1.1 i = true
      cases hstep : import_step acc r with
      | none => exact h
      | some acc' => exact ih acc' (hasMfId_import_step h hstep)

/-- After a successfully handled `ok` row, its id is present. -/
theorem import_step_ok_present {acc : DBState × ImportResult} {row : CsvRow}
    {t : MFTransaction} {acc' : DBState × ImportResult}
    (hrow : parseCsvRow row = RowParse.ok t)
    (hstep : import_step acc row = some acc') :
    hasMfId acc'.1 t.mf_id = true := by
  rw [import_step_ok hrow] at hstep
  have hself := hasMfId_save_self acc.1 t
  cases hs : save_mf_transaction acc.1 t with
  | mk b st' =>
      rw [hs] at hstep hself
      cases b
      · injection hstep with h'; rw [← h']; exact hself
      · injection hstep with h'; rw [← h']; exact hself

/-- A step on a non-crashing row succeeds and appends that row's errors. -/
theorem import_step_errors {acc : DBState × ImportResult} {row : CsvRow}
    (h : isCrashRow row = false) :
    ∃ acc', import_step acc row = some acc' ∧
      acc'.2.errors = acc.2.errors ++ rowErr row := by
  unfold isCrashRow at h
  unfold rowErr
  cases hp : parseCsvRow row
  case crashed => rw [hp] at h; simp at h
  case emptyId => exact ⟨_, import_step_skip hp, by simp⟩
  case badDate i raw => exact ⟨_, import_step_badDate hp, by simp⟩
  case badAmount i raw => exact ⟨_, import_step_badAmount hp, by simp⟩
  case ok t =>
      rw [import_step_ok hp]
      cases hs : save_mf_transaction acc.1 t with
      | mk b st' => cases b <;> exact ⟨_, rfl, by simp⟩

/-- The crash flag depends only on the rows, not on the database. -/
theorem import_run_flag (rows : List CsvRow) :
    ∀ acc : DBState × ImportResult, (import_run acc rows).2 = rows.any isCrashRow := by
  induction rows with
  | nil => intro acc; simp [import_run]
  | cons r rest ih =>
      intro acc
      show (match import_step acc r with
        | none => (acc, true)
        | some acc' => import_run acc' rest).2 = _
      cases hstep : import_step acc r with
      | none =>
          have := (import_step_none_iff acc r).1 hstep
          simp [this]
      | some acc' =>
          have hcr : isCrashRow r = false := by
            cases hh : isCrashRow r
            · rfl
            · rw [(import_step_none_iff acc r).2 hh] at hstep; cases hstep
          simp [hcr, ih acc']

theorem preCrash_of_no_crash {rows : List CsvRow}
    (h : rows.any isCrashRow = false) : preCrash rows = rows := by
  induction rows with
  | nil => rfl
  | cons r rest ih =>
      simp only [List.any_cons, Bool.or_eq_false_iff] at h
      rw [preCrash_cons_ok rest h.1, ih h.2]

/-- The errors a run reports are exactly those of the rows it processed. -/
theorem import_run_errors (rows : List CsvRow) :
    ∀ acc : DBState × ImportResult,
      (import_run acc rows).1.2.errors = acc.2.errors ++ errorsOf (preCrash rows) := by
  induction rows with
  | nil => intro acc; simp [import_run, preCrash, errorsOf]
  | cons r rest ih =>
      intro acc
      show (match import_step acc r with
        | none => (acc, true)
        | some acc' => import_run acc' rest).1.2.errors = _
      cases hstep : import_step acc r with
      | none =>
          rw [preCrash_cons_crash rest
            ((isCrashRow_iff r).1 ((import_step_none_iff acc r).1 hstep))]
          simp [errorsOf]
      | some acc' =>
          have hcr : isCrashRow r = false := by
            cases hh : isCrashRow r
            · rfl
            · rw [(import_step_none_iff acc r).2 hh] at hstep; cases hstep
          obtain ⟨acc'', hstep2, herr⟩ := @import_step_errors acc r hcr
          rw [hstep2] at hstep
          injection hstep with hstep
          rw [ih acc', ← hstep, herr, preCrash_cons_ok rest hcr]
          unfold errorsOf
          rw [List.flatMap_cons, List.append_assoc]

/-- Running the import a second time over any state that already contains
everything the first run inserted: the database is untouched, every row of
the processed prefix is skipped, the prefix errors are reported again, and
the run crashes at the same row the first one did (if any). -/
theorem import_run_second (rows : List CsvRow) :
    ∀ (acc1 acc2 : DBState × ImportResult),
      acc2.1 = (import_run acc1 rows).1.1 →
      import_run acc2 rows =
        ((acc2.1, ⟨acc2.2.imported,
                   acc2.2.skipped + (preCrash rows).length,
                   acc2.2.errors ++ errorsOf (preCrash rows)⟩),
         rows.any isCrashRow) := by
  induction rows with
  | nil =>
      intro acc1 acc2 _
      show (acc2, false) = _
      simp [preCrash, errorsOf]
  | cons r rest ih =>
      intro acc1 acc2 hacc2
      by_cases hcrt : isCrashRow r = true
      · -- both runs abort at this row
        have hp := (isCrashRow_iff r).1 hcrt
        have hrun2 : import_run acc2 (r :: rest) = (acc2, true) := by
          show (match import_step acc2 r with
            | none => (acc2, true)
            | some acc' => import_run acc' rest) = _
          rw [import_step_crash hp]
        rw [hrun2, preCrash_cons_crash rest hp]
        simp [errorsOf, hcrt]
      · have hcr : isCrashRow r = false := Bool.of_not_eq_true hcrt
        obtain ⟨acc1', hstep1⟩ : ∃ a, import_step acc1 r = some a := by
          cases hs : import_step acc1 r with
          | none =>
              rw [(import_step_none_iff acc1 r).1 hs] at hcr
              cases hcr
          | some a => exact ⟨a, rfl⟩
        have hrun1 : import_run acc1 (r :: rest) = import_run acc1' rest := by
          show (match import_step acc1 r with
            | none => (acc1, true)
            | some acc' => import_run acc' rest) = _
          rw [hstep1]
        have hstep2 : import_step acc2 r =
            some (acc2.1, ⟨acc2.2.imported, acc2.2.skipped + 1,
                           acc2.2.errors ++ rowErr r⟩) := by
          unfold rowErr
          cases hp : parseCsvRow r
          case crashed =>
              rw [(isCrashRow_iff r).2 hp] at hcr
              simp at hcr
          case emptyId => rw [import_step_skip hp]; simp
          case badDate i raw => rw [import_step_badDate hp]
          case badAmount i raw => rw [import_step_badAmount hp]
          case ok t =>
              have hpr1 : hasMfId acc1'.1 t.mf_id = true :=
                import_step_ok_present hp hstep1
              have hpr2 : hasMfId acc2.1 t.mf_id = true := by
                rw [hacc2, hrun1]
                exact hasMfId_import_run rest acc1' hpr1
              rw [import_step_ok hp, save_of_present hpr2]
              simp
        have hrun2 : import_run acc2 (r :: rest) =
            import_run (acc2.1, ⟨acc2.2.imported, acc2.2.skipped + 1,
                                 acc2.2.errors ++ rowErr r⟩) rest := by
          show (match import_step acc2 r with
            | none => (acc2, true)
            | some acc' => import_run acc' rest) = _
          rw [hstep2]
        rw [hrun2, ih acc1'
          (acc2.1, ⟨acc2.2.imported, acc2.2.skipped + 1, acc2.2.errors ++ rowErr r⟩)
          (by show acc2.1 = _; rw [hacc2, hrun1]),
          preCrash_cons_ok rest hcr]
        simp only [List.any_cons, hcr, Bool.false_or, List.length_cons]
        unfold errorsOf
        rw [List.flatMap_cons, List.append_assoc]
        congr 3
        omega

/-! ## LLM-failure transparency -/

/-- Two similarity oracles that agree through `_gemini_similarity_check`. -/
def simEquiv (llm1 llm2 : LLM) : Prop :=
  ∀ a b c, simCheckWithLog llm1 a b c = simCheckWithLog llm2 a b c

theorem processCand_congr {llm1 llm2 : LLM} (h : simEquiv llm1 llm2) (cf : CF)
    (e : Expense) (ls : ExpLoopState) (mf : MFTransaction) :
    processCand llm1 cf e ls mf = processCand llm2 cf e ls mf := by
  unfold processCand
  rw [h e.store_name mf.content ls.certain]

theorem processCands_congr {llm1 llm2 : LLM} (h : simEquiv llm1 llm2) (cf : CF)
    (e : Expense) :
    ∀ (cands : List MFTransaction) (ls : ExpLoopState),
      processCands llm1 cf e ls cands = processCands llm2 cf e ls cands := by
  intro cands
  induction cands with
  | nil => intro ls; rfl
  | cons mf rest ih =>
      intro ls
      show processCands llm1 cf e (processCand llm1 cf e ls mf) rest = _
      rw [processCand_congr h cf e ls mf, ih]
      rfl

theorem processExpense_congr {llm1 llm2 : LLM} (h : simEquiv llm1 llm2) (cf : CF)
    (st : DBState) (e : Expense) :
    processExpense llm1 cf st e = processExpense llm2 cf st e := by
  simp only [processExpense]
  rw [processCands_congr h cf e]

theorem processExpenses_congr {llm1 llm2 : LLM} (h : simEquiv llm1 llm2) (cf : CF) :
    ∀ (es : List Expense) (acc : PassAcc),
      processExpenses llm1 cf acc es = processExpenses llm2 cf acc es := by
  intro es
  induction es with
  | nil => intro acc; rfl
  | cons e rest ih =>
      intro acc
      show processExpenses llm1 cf _ rest = processExpenses llm2 cf _ rest
      rw [processExpense_congr h cf acc.st e, ih]

theorem pass_congr {llm1 llm2 : LLM} (h : simEquiv llm1 llm2) (cf : CF) (st : DBState) :
    match_with_moneyforward llm1 cf st = match_with_moneyforward llm2 cf st := by
  unfold match_with_moneyforward
  rw [processExpenses_congr h cf]

/-- An oracle that raises on one specific input pair. -/
def failPair (p : Str × Str) (llm : LLM) : LLM :=
  fun a b => if (a, b) = p then none else llm a b

/-- The same oracle answering a definite "no" on that pair instead. -/
def noPair (p : Str × Str) (llm : LLM) : LLM :=
  fun a b => if (a, b) = p then some "no".toList else llm a b

theorem simEquiv_fail_no (p : Str × Str) (llm : LLM) :
    simEquiv (failPair p llm) (noPair p llm) := by
  intro a b c
  unfold simCheckWithLog failPair noPair
  by_cases hg : (a = [] || b = []) = true
  · rw [if_pos hg, if_pos hg]
  · rw [if_neg hg, if_neg hg]
    by_cases hp : (a, b) = p
    · rw [if_pos hp, if_pos hp]
      have hno : decide ("yes".toList <:+: pyLower (pyStrip "no".toList)) = false := by
        decide
      show (false, ([⟨a, b, c⟩] : List SimCall)) =
        (decide ("yes".toList <:+: pyLower (pyStrip "no".toList)), [⟨a, b, c⟩])
      rw [hno]
    · rw [if_neg hp, if_neg hp]

/-! ## Categorizer lemmas -/

theorem infix_append_left {l l1 : List α} (l2 : List α) (h : l <:+: l1) :
    l <:+: l1 ++ l2 := by
  obtain ⟨s, t, rfl⟩ := h
  exact ⟨s, t ++ l2, by simp⟩

theorem infix_append_right {l l2 : List α} (l1 : List α) (h : l <:+: l2) :
    l <:+: l1 ++ l2 := by
  obtain ⟨s, t, rfl⟩ := h
  exact ⟨l1 ++ s, t, by simp⟩

/-- A keyword occurring in the store name or the item text occurs in the
`f"{store_name} {items_text}"` haystack (all case-folded). -/
theorem keyword_infix_haystack {kw store itemsText : Str}
    (h : pyLower kw <:+: pyLower store ∨ pyLower kw <:+: pyLower itemsText) :
    pyLower kw <:+: pyLower (store ++ ' ' :: itemsText) := by
  unfold pyLower at h ⊢
  rw [List.map_append, List.map_cons]
  rcases h with h | h
  · exact infix_append_left _ h
  · exact infix_append_right _ (infix_append_right [Char.toLower ' '] h)

theorem keywordHit_of_mem {kws : List Str} {hay kw : Str} (hkw : kw ∈ kws)
    (hinf : pyLower kw <:+: hay) : keywordHit kws hay = true := by
  unfold keywordHit
  exact List.any_eq_true.2 ⟨kw, hkw, by simpa using hinf⟩

theorem findKeyword_found :
    ∀ (table : List (Str × List Str)) (hay : Str),
      (∃ cat kws, (cat, kws) ∈ table ∧ ∃ kw ∈ kws, pyLower kw <:+: hay) →
      ∃ c, findKeyword table hay = some c ∧
        ∃ kws2, (c, kws2) ∈ table ∧ ∃ kw2 ∈ kws2, pyLower kw2 <:+: hay := by
  intro table
  induction table with
  | nil =>
      intro hay h
      obtain ⟨c, k, h1, _⟩ := h
      simp at h1
  | cons p rest ih =>
      intro hay h
      obtain ⟨cat, kws⟩ := p
      by_cases hh : keywordHit kws hay = true
      · refine ⟨cat, ?_, ?_⟩
        · unfold findKeyword; rw [if_pos hh]
        · obtain ⟨kw, hkw, hdec⟩ := List.any_eq_true.1 hh
          exact ⟨kws, List.mem_cons_self _ _, kw, hkw, by simpa using hdec⟩
      · obtain ⟨cat0, kws0, hmem, kw0, hkw0, hinf0⟩ := h
        rcases List.mem_cons.1 hmem with hhead | htail
        · exfalso
          injection hhead with hc hk
          exact hh (keywordHit_of_mem (hk ▸ hkw0) hinf0)
        · obtain ⟨c, hfk, kws2, hmem2, hrest⟩ :=
            ih hay ⟨cat0, kws0, htail, kw0, hkw0, hinf0⟩
          refine ⟨c, ?_, kws2, List.mem_cons_of_mem _ hmem2, hrest⟩
          unfold findKeyword
          rw [if_neg hh]
          exact hfk

/-- Stage 1 short-circuits stages 2-3: a keyword hit fixes the categorizer's
output for every database history and every category oracle. -/
theorem auto_categorize_keyword (store : Str) (items : List Str)
    (h : ∃ cat kws, (cat, kws) ∈ CATEGORY_KEYWORDS ∧ ∃ kw ∈ kws,
          (pyLower kw <:+: pyLower store ∨
           pyLower kw <:+: pyLower (joinItems items))) :
    ∃ c, (∃ kws2, (c, kws2) ∈ CATEGORY_KEYWORDS ∧ ∃ kw2 ∈ kws2,
            pyLower kw2 <:+: pyLower (store ++ ' ' :: joinItems items)) ∧
      ∀ (st : DBState) (llm : CatLLM), auto_categorize st llm store items = (c, none) := by
  obtain ⟨cat, kws, hmem, kw, hkw, hinf⟩ := h
  obtain ⟨c, hfk, hprops⟩ := findKeyword_found CATEGORY_KEYWORDS
    (pyLower (store ++ ' ' :: joinItems items))
    ⟨cat, kws, hmem, kw, hkw, keyword_infix_haystack hinf⟩
  refine ⟨c, hprops, ?_⟩
  intro st llm
  have hrb : rule_based_categorize store (joinItems items) = some (c, none) := by
    simp only [rule_based_categorize]
    rw [hfk]
    rfl
  simp only [auto_categorize]
  rw [hrb]

/-- When stages 1 and 2 both miss, a failing category oracle yields `雑費`. -/
theorem auto_categorize_llm_failure (st : DBState) (store : Str) (items : List Str)
    (h1 : rule_based_categorize store (joinItems items) = none)
    (h2 : historyCategorize st store = none) :
    auto_categorize st (fun _ _ => none) store items = defaultCategory := by
  simp only [auto_categorize]
  rw [h1, h2]

/-! ## Concrete scenarios -/

/-- The spec's example scenario CSV row
`{external_id: "TX1", date: "2024/03/10", description: "Coffee Shop", amount: "-500"}`. -/
def tx1Row : CsvRow :=
  { mf_id := "TX1".toList
    calc_target := "1".toList
    date := "2024/03/10".toList
    content := "Coffee Shop".toList
    amount := "-500".toList
    source_account := "Bank".toList
    large_category := []
    medium_category := []
    memo := []
    transfer_flag := "0".toList }

/-- A similarity oracle that always answers "no" (never needed when the
substring check already matches). -/
def llmAnsNo : LLM := fun _ _ => some "no".toList

/-- A database that never fails a certain-match write. -/
def cfNever : CF := fun _ _ => false

/-- Empty database plus the example expense
`{date: "2024-03-10", store_name: "Coffee Shop", amount: 500}` (id 1). -/
def c1Base : DBState :=
  (save_expense initState "2024-03-10".toList "Coffee Shop".toList 500 [] none).2

def c1State : DBState := (import_moneyforward_csv c1Base [tx1Row]).1.1

def c1Pass : PassAcc := match_with_moneyforward llmAnsNo cfNever c1State

/-- Same scenario with the ledger date 5 days away (`2024/03/05`). -/
def tx9Row : CsvRow := { tx1Row with date := "2024/03/05".toList }

def c9State : DBState := (import_moneyforward_csv c1Base [tx9Row]).1.1

def c9Pass : PassAcc := match_with_moneyforward llmAnsNo cfNever c9State

/-- The TX1 ledger row of the 5-day-gap scenario as it sits in the table. -/
def c9Tx : MFTransaction :=
  { mf_id := "TX1".toList
    is_calculation_target := 1
    date := "2024-03-05".toList
    content := "Coffee Shop".toList
    amount := -500
    source_account := "Bank".toList
    large_category := []
    medium_category := []
    memo := []
    is_transfer := 0
    matched_expense_id := none }

def c9Exp : Expense :=
  { id := 1
    date := "2024-03-10".toList
    store_name := "Coffee Shop".toList
    amount := 500
    category := []
    subcategory := none
    moneyforward_matched := 0
    moneyforward_id := none }

def c9Cand : Candidate := ⟨c9Tx, Confidence.uncertain⟩

def c9Entry : ResultEntry := ⟨c9Exp, [c9Cand]⟩

/-- Two same-day exact-amount ledger rows; the second has an unrelated
description, so its similarity check needs the LLM. -/
def c4T1 : MFTransaction :=
  { c9Tx with mf_id := "T1".toList, date := "2024-03-10".toList }

def c4T2 : MFTransaction :=
  { c4T1 with mf_id := "T2".toList, content := "ZZZ".toList }

def c4State : DBState := ⟨[c9Exp], [c4T1, c4T2], 2⟩

def c4Pass : PassAcc := match_with_moneyforward llmAnsNo cfNever c4State

/-- Two same-day certain-qualifying rows where the write for the first one
fails and the second one then commits. -/
def c6T1 : MFTransaction := { c4T1 with mf_id := "U1".toList }

def c6T2 : MFTransaction := { c4T1 with mf_id := "U2".toList }

def c6State : DBState := ⟨[c9Exp], [c6T1, c6T2], 2⟩

def c6Fail : CF := fun _ i => decide (i = "U1".toList)

def c6Pass : PassAcc := match_with_moneyforward llmAnsNo c6Fail c6State

/-- One certain-qualifying row whose commit always fails. -/
def c6bState : DBState := ⟨[c9Exp], [c6T1], 2⟩

def cfAlways : CF := fun _ _ => true

def c6bPass : PassAcc := match_with_moneyforward llmAnsNo cfAlways c6bState

/-- A data row with an empty transaction ID (always skipped, never inserted). -/
def c2EmptyRow : CsvRow := { tx1Row with mf_id := [] }

/-- A data row whose amount field reads "inf": float() accepts it, int()
overflows, and only ValueError is caught, so the import aborts. -/
def c2InfRow : CsvRow := { tx1Row with amount := "inf".toList }

/-- The count the claim compares the second run's `skipped` against: data rows
with a non-empty ID that parsed successfully. -/
def successfullyParsedCount (rows : List CsvRow) : Nat :=
  (rows.filter (fun r =>
    match parseCsvRow r with
    | RowParse.ok _ => true
    | _ => false)).length

def c3Ops : List Op :=
  [Op.addExp "2024-03-10".toList "Coffee Shop".toList 500 [] none,
   Op.importCsv [tx1Row],
   Op.reconcile llmAnsNo cfNever]

def c3State : DBState := runOps initState c3Ops

/-- The amount-only query never returns an id in its exclusion set. -/
theorem mem_amount_query_excluded {st : DBState} {amt : Nat} {ids : List Str}
    {t : MFTransaction} (h : t ∈ get_mf_candidates_by_amount st amt ids) :
    t.mf_id ∉ ids := by
  intro hbad
  have h2 := (List.mem_filter.1 h).2
  simp only [Bool.not_eq_eq_eq_not, Bool.not_true, List.any_eq_false,
    decide_eq_false_iff_not] at h2
  exact h2 t.mf_id hbad (decide_eq_true rfl)

/-! ## Claims -/

/-- C1: in the example scenario (expense `Coffee Shop`/500/2024-03-10 against
imported ledger row TX1 with amount -500 and the same date) `reconcile()`
auto-matches: TX1's `matched_expense_id` becomes the expense's id 1, the
expense is marked matched, and the pass surfaces no candidate for the expense
(the certain match suppresses it from the returned list, so its candidate
list is empty). -/
theorem c1_certain_auto_match :
    (findMf c1Pass.st "TX1".toList).map (fun t => t.matched_expense_id) =
      some (some 1) ∧
    (findExp c1Pass.st 1).map (fun e => e.moneyforward_matched) = some 1 ∧
    candidatesFor c1Pass.results 1 = [] := by decide

/-- C9: with the ledger date moved to 2024-03-05 (5-day gap), `reconcile()`
commits nothing, both rows stay unmatched, and TX1 surfaces for the expense
only at the "uncertain" tier via the amount-only search; moreover the
amount-only query never returns an id already surfaced by the ±2-day search
(its exclusion set). -/
theorem c9_outside_window_uncertain :
    (c9Pass.commits = [] ∧
     (findExp c9Pass.st 1).map (fun e => e.moneyforward_matched) = some 0 ∧
     (findMf c9Pass.st "TX1".toList).map (fun t => t.matched_expense_id) =
       some none ∧
     (candidatesFor c9Pass.results 1).map (fun c => (c.mf.mf_id, c.confidence)) =
       [("TX1".toList, Confidence.uncertain)]) ∧
    (∀ (st : DBState) (amt : Nat) (ids : List Str) (t : MFTransaction),
      t ∈ get_mf_candidates_by_amount st amt ids → t.mf_id ∉ ids) := by
  constructor
  · decide
  · intro st amt ids t ht
    exact mem_amount_query_excluded ht

/-- C9 witness: the 5-day-gap scenario instantiates the exclusion clause with
a non-trivial exclusion set. -/
theorem c9_witness :
    (c9Tx ∈ get_mf_candidates_by_amount c9State 500 ["ZZZ".toList]) ∧
    c9Tx.mf_id ∉ ["ZZZ".toList] :=
  ⟨by decide, c9_outside_window_uncertain.2 c9State 500 ["ZZZ".toList] c9Tx (by decide)⟩

/-- C2 counterexample: for a CSV whose single data row has an empty ID, the
second run's `skipped` is 1 (the empty-ID row is skipped again) while the
number of data rows with a non-empty ID that parsed successfully is 0, so the
claimed equality fails; and for a CSV whose single row carries the amount
"inf", the run does not complete at all (int(float("inf")) raises an
uncaught OverflowError), refuting "no failure". -/
theorem c2_counterexample :
    ¬((import_moneyforward_csv (import_moneyforward_csv initState [c2EmptyRow]).1.1
        [c2EmptyRow]).1.2.skipped = successfullyParsedCount [c2EmptyRow]) ∧
    (import_moneyforward_csv initState [c2InfRow]).2 = true := by
  constructor
  · decide
  · decide

/-- C2 (amended): re-importing the same rows leaves the ledger unchanged: the
database state after the second run equals the state after the first (no
duplicates, no deletions), the second run imports nothing, skips every row of
the prefix the first run processed, reports the same errors for that prefix,
and crashes exactly when the first run crashed (at the same overflowing row);
in particular, if the first run completed without the uncaught OverflowError,
the second also completes, with `imported` 0, `skipped` equal to the total
number of data rows, and the same error list. -/
theorem c2_import_idempotent (st : DBState) (rows : List CsvRow) :
    import_moneyforward_csv (import_moneyforward_csv st rows).1.1 rows =
      (((import_moneyforward_csv st rows).1.1,
        ⟨0, (preCrash rows).length, errorsOf (preCrash rows)⟩),
       (import_moneyforward_csv st rows).2) ∧
    ((import_moneyforward_csv st rows).2 = false →
       import_moneyforward_csv (import_moneyforward_csv st rows).1.1 rows =
         (((import_moneyforward_csv st rows).1.1,
           ⟨0, rows.length, (import_moneyforward_csv st rows).1.2.errors⟩),
          false)) := by
  have hflag : (import_moneyforward_csv st rows).2 = rows.any isCrashRow :=
    import_run_flag rows (st, ⟨0, 0, []⟩)
  have hmain := import_run_second rows (st, ⟨0, 0, []⟩)
    ((import_moneyforward_csv st rows).1.1, ⟨0, 0, []⟩) rfl
  constructor
  · show import_run ((import_moneyforward_csv st rows).1.1, ⟨0, 0, []⟩) rows = _
    rw [hmain, hflag]
    simp
  · intro h
    show import_run ((import_moneyforward_csv st rows).1.1, ⟨0, 0, []⟩) rows = _
    have hany : rows.any isCrashRow = false := by rw [← hflag]; exact h
    have herr : (import_moneyforward_csv st rows).1.2.errors =
        errorsOf (preCrash rows) :=
      import_run_errors rows (st, ⟨0, 0, []⟩)
    rw [hmain, hany, herr, preCrash_of_no_crash hany]
    simp

/-- C2 witness: the no-crash branch at a concrete one-row CSV. -/
theorem c2_witness :
    (import_moneyforward_csv initState [tx1Row]).2 = false ∧
    import_moneyforward_csv (import_moneyforward_csv initState [tx1Row]).1.1
        [tx1Row] =
      (((import_moneyforward_csv initState [tx1Row]).1.1,
        ⟨0, [tx1Row].length, (import_moneyforward_csv initState [tx1Row]).1.2.errors⟩),
       false) :=
  ⟨by decide, (c2_import_idempotent initState [tx1Row]).2 (by decide)⟩

/-- C3: in every state reachable by expense creation, import and reconcile
operations, the expense↔ledger link is 1:1 optional: a ledger row points to
at most one expense, no two ledger rows are matched to the same expense, and
a matched ledger row never reappears as a candidate in any later
reconciliation pass (run after any further operations). -/
theorem c3_no_double_match (st : DBState) (h : Reachable st) :
    (∀ t ∈ st.mfTxs, ∀ e1 e2 : Nat, t.matched_expense_id = some e1 →
      t.matched_expense_id = some e2 → e1 = e2) ∧
    (∀ t1 ∈ st.mfTxs, ∀ t2 ∈ st.mfTxs, ∀ eid : Nat,
      t1.matched_expense_id = some eid → t2.matched_expense_id = some eid →
      t1 = t2) ∧
    (∀ t ∈ st.mfTxs, ∀ eid : Nat, t.matched_expense_id = some eid →
      ∀ (ops : List Op) (llm : LLM) (cf : CF),
        t.mf_id ∉
          candidateIds (match_with_moneyforward llm cf (runOps st ops)).results) := by
  have hInv := dbinv_reachable h
  obtain ⟨hMf, hExp, hNext, hCons⟩ := hInv
  refine ⟨?_, ?_, ?_⟩
  · intro t _ e1 e2 h1 h2
    rw [h1] at h2
    injection h2
  · intro t1 ht1 t2 ht2 eid h1 h2
    obtain ⟨w1, hw1Mem, hw1Id, _, hw1Mf⟩ := hCons t1 ht1 eid h1
    obtain ⟨w2, hw2Mem, hw2Id, _, hw2Mf⟩ := hCons t2 ht2 eid h2
    have hw : w1 = w2 :=
      List.inj_on_of_nodup_map hExp hw1Mem hw2Mem (by rw [hw1Id, hw2Id])
    have hid : t1.mf_id = t2.mf_id := by
      rw [hw] at hw1Mf
      rw [hw1Mf] at hw2Mf
      injection hw2Mf
    exact List.inj_on_of_nodup_map hMf ht1 ht2 hid
  · intro t ht eid hmt ops llm cf
    have hrow : HasMatchedRow st t.mf_id eid := ⟨t, ht, rfl, hmt⟩
    have hInv' : DBInv (runOps st ops) := dbinv_runOps ⟨hMf, hExp, hNext, hCons⟩ ops
    have hrow' := matched_persists_runOps ⟨hMf, hExp, hNext, hCons⟩ ops hrow
    exact matched_not_candidate hInv' hrow' llm cf

/-- C3 witness: the fully-run example scenario (expense added, TX1 imported,
one reconcile pass committed a certain match) is reachable and satisfies the
invariant; in it TX1 is matched to expense 1. -/
theorem c3_witness :
    Reachable c3State ∧
    ((∀ t ∈ c3State.mfTxs, ∀ e1 e2 : Nat, t.matched_expense_id = some e1 →
        t.matched_expense_id = some e2 → e1 = e2) ∧
     (∀ t1 ∈ c3State.mfTxs, ∀ t2 ∈ c3State.mfTxs, ∀ eid : Nat,
        t1.matched_expense_id = some eid → t2.matched_expense_id = some eid →
        t1 = t2) ∧
     (∀ t ∈ c3State.mfTxs, ∀ eid : Nat, t.matched_expense_id = some eid →
        ∀ (ops : List Op) (llm : LLM) (cf : CF),
          t.mf_id ∉
            candidateIds (match_with_moneyforward llm cf (runOps c3State ops)).results)) :=
  ⟨⟨c3Ops, rfl⟩, c3_no_double_match c3State ⟨c3Ops, rfl⟩⟩

/-- C4 counterexample: with two same-day exact-amount candidates where the
first one auto-matches (certain) and the second one's name does not
substring-match, the engine still evaluates the second candidate after the
certain commit: the similarity LLM is invoked once with the
already-committed flag set, refuting "remaining candidates ... are not
further evaluated (no further similarity checks)". -/
theorem c4_counterexample :
    c4Pass.commits.map (fun p => p.1) = [1] ∧
    c4Pass.simLog.map (fun s => s.afterCertain) = [true] := by decide

/-- C4 (amended): at most one certain auto-match is committed per expense per
pass, and an expense with a committed certain match is dropped from the
returned results; however the remaining same-window candidates of that
expense are still scanned (including LLM similarity checks) and classified
"likely" before being discarded. -/
theorem c4_single_certain_commit (llm : LLM) (cf : CF) (st : DBState)
    (h : ExpIdsNodup st) :
    (((match_with_moneyforward llm cf st).commits.map (fun p => p.1)).Nodup) ∧
    (∀ p ∈ (match_with_moneyforward llm cf st).commits,
      p.1 ∉ (match_with_moneyforward llm cf st).results.map (fun r => r.expense.id)) :=
  pass_commits llm cf st h

/-- C4 witness: the two-candidate counterexample state instantiates the
amended claim; its single commit is for expense 1 and no result entry
carries that id. -/
theorem c4_witness :
    ExpIdsNodup c4State ∧
    ((((match_with_moneyforward llmAnsNo cfNever c4State).commits.map
        (fun p => p.1)).Nodup) ∧
     (∀ p ∈ (match_with_moneyforward llmAnsNo cfNever c4State).commits,
        p.1 ∉ (match_with_moneyforward llmAnsNo cfNever c4State).results.map
          (fun r => r.expense.id))) :=
  ⟨by unfold ExpIdsNodup; decide,
   c4_single_certain_commit llmAnsNo cfNever c4State (by unfold ExpIdsNodup; decide)⟩

/-- C5: a transfer row, a non-calculation-target row, or an already-matched
row is never returned as a candidate at any confidence tier and is never the
target of a certain auto-match commit, for every database state, similarity
oracle and write-failure oracle. -/
theorem c5_excluded_rows (llm : LLM) (cf : CF) (st : DBState) :
    (∀ entry ∈ (match_with_moneyforward llm cf st).results, ∀ c ∈ entry.candidates,
      c.mf.is_transfer = 0 ∧ c.mf.is_calculation_target = 1 ∧
      c.mf.matched_expense_id = none) ∧
    (∀ p ∈ (match_with_moneyforward llm cf st).commits,
      p.2.is_transfer = 0 ∧ p.2.is_calculation_target = 1 ∧
      p.2.matched_expense_id = none) := by
  have h := pass_good llm cf st
  exact ⟨fun entry he c hc =>
      ⟨(h.1 entry he c hc).2.1, (h.1 entry he c hc).2.2.1, (h.1 entry he c hc).1⟩,
    fun p hp => ⟨(h.2 p hp).2.1, (h.2 p hp).2.2.1, (h.2 p hp).1⟩⟩

/-- C5 witness: the 5-day-gap scenario's uncertain candidate instantiates the
exclusion properties. -/
theorem c5_witness :
    (c9Entry ∈ c9Pass.results ∧ c9Cand ∈ c9Entry.candidates) ∧
    (c9Cand.mf.is_transfer = 0 ∧ c9Cand.mf.is_calculation_target = 1 ∧
     c9Cand.mf.matched_expense_id = none) :=
  ⟨⟨by decide, by decide⟩,
   (c5_excluded_rows llmAnsNo cfNever c9State).1 c9Entry (by decide) c9Cand (by decide)⟩

/-- C6 counterexample: expense 1 has two certain-qualifying candidates U1 and
U2; the commit for U1 fails (and is attempted exactly once) but U2 then
commits, so the whole expense is dropped from the results and the failed
candidate U1 does NOT appear in the returned list with confidence "likely" —
refuting the claim that a failed-commit candidate always falls back into the
returned list. -/
theorem c6_counterexample :
    (1, "U1".toList) ∈ c6Pass.attempts ∧ c6Fail 1 "U1".toList = true ∧
    c6Pass.results = [] := by decide

/-- C6 (amended): a failed certain-match commit is not retried within the
pass (each `(expense, ledger-row)` commit is attempted at most once), the
error is not propagated (the pass is a total function), and the failed
candidate appears in the returned list for its expense with confidence
"likely" provided no later candidate commits a certain match for that
expense in the same pass (if one does, the expense is omitted from the
results and the failed candidate is dropped with it). -/
theorem c6_commit_failure_fallback (llm : LLM) (cf : CF) (st : DBState)
    (hm : MfIdsNodup st) (he : ExpIdsNodup st) :
    (match_with_moneyforward llm cf st).attempts.Nodup ∧
    (∀ p ∈ (match_with_moneyforward llm cf st).attempts, cf p.1 p.2 = true →
      p.1 ∉ (match_with_moneyforward llm cf st).commits.map (fun q => q.1) →
      ∃ entry ∈ (match_with_moneyforward llm cf st).results,
        entry.expense.id = p.1 ∧
        ∃ c ∈ entry.candidates, c.mf.mf_id = p.2 ∧
          c.confidence = Confidence.likely) :=
  pass_attempts llm cf st hm he

/-- C6 witness: with a single candidate U1 whose commit always fails, the
pass has a failed attempt with no commit, and U1 indeed comes back in the
expense's returned list as "likely". -/
theorem c6_witness :
    (MfIdsNodup c6bState ∧ ExpIdsNodup c6bState ∧
     (1, "U1".toList) ∈ c6bPass.attempts ∧ cfAlways 1 "U1".toList = true ∧
     (1 : Nat) ∉ c6bPass.commits.map (fun q => q.1)) ∧
    (∃ entry ∈ c6bPass.results, entry.expense.id = 1 ∧
      ∃ c ∈ entry.candidates, c.mf.mf_id = "U1".toList ∧
        c.confidence = Confidence.likely) :=
  ⟨⟨by unfold MfIdsNodup; decide, by unfold ExpIdsNodup; decide,
    by decide, rfl, by decide⟩,
   (c6_commit_failure_fallback llmAnsNo cfAlways c6bState
      (by unfold MfIdsNodup; decide) (by unfold ExpIdsNodup; decide)).2
     (1, "U1".toList) (by decide) rfl (by decide)⟩

/-- C7: an exception in the LLM collaborator is never propagated: a pass run
with an oracle that raises on one input pair is indistinguishable (same
final state, results, logs) from the same pass with the oracle answering
"no" on that pair — the failure degrades to similarity = false for that one
candidate only and everything else proceeds identically; and when stages 1
and 2 of the categorizer miss, a raising category oracle yields the default
category `雑費`. -/
theorem c7_llm_failure_degrades (llm : LLM) (p : Str × Str) (cf : CF) (st : DBState) :
    match_with_moneyforward (failPair p llm) cf st =
      match_with_moneyforward (noPair p llm) cf st ∧
    (∀ (store : Str) (items : List Str),
      rule_based_categorize store (joinItems items) = none →
      historyCategorize st store = none →
      auto_categorize st (fun _ _ => none) store items = defaultCategory) :=
  ⟨pass_congr (simEquiv_fail_no p llm) cf st,
   fun store items h1 h2 => auto_categorize_llm_failure st store items h1 h2⟩

/-- C7 witness: for the store name `すし店` with no items and an empty
database, stages 1 and 2 miss and a failing oracle yields `雑費`. -/
theorem c7_witness :
    (rule_based_categorize "すし店".toList (joinItems []) = none ∧
     historyCategorize initState "すし店".toList = none) ∧
    auto_categorize initState (fun _ _ => none) "すし店".toList [] = defaultCategory :=
  ⟨⟨by decide, by decide⟩,
   (c7_llm_failure_degrades llmAnsNo ("a".toList, "b".toList) cfNever initState).2
     "すし店".toList [] (by decide) (by decide)⟩

/-- C8: if some keyword of `CATEGORY_KEYWORDS` occurs (case-insensitively) in
the store name or in the concatenated item names, `auto_categorize` returns
a keyword rule's category (the first matching rule) with no subcategory, and
the result is the same for every database history and every LLM behavior —
stage 1 short-circuits stages 2 and 3. -/
theorem c8_keyword_rule_short_circuits (store : Str) (items : List Str)
    (h : ∃ cat kws, (cat, kws) ∈ CATEGORY_KEYWORDS ∧ ∃ kw ∈ kws,
        (pyLower kw <:+: pyLower store ∨
         pyLower kw <:+: pyLower (joinItems items))) :
    ∃ c, (∃ kws2, (c, kws2) ∈ CATEGORY_KEYWORDS ∧ ∃ kw2 ∈ kws2,
        pyLower kw2 <:+: pyLower (store ++ ' ' :: joinItems items)) ∧
      ∀ (st : DBState) (llm : CatLLM),
        auto_categorize st llm store items = (c, none) :=
  auto_categorize_keyword store items h

/-- C8 witness: the store name `スタバ渋谷店` hits the keyword `スタバ` of
category `会議費`, so the categorizer's output is fixed for all histories
and oracles. -/
theorem c8_witness :
    (∃ cat kws, (cat, kws) ∈ CATEGORY_KEYWORDS ∧ ∃ kw ∈ kws,
        (pyLower kw <:+: pyLower "スタバ渋谷店".toList ∨
         pyLower kw <:+: pyLower (joinItems []))) ∧
    (∃ c, (∃ kws2, (c, kws2) ∈ CATEGORY_KEYWORDS ∧ ∃ kw2 ∈ kws2,
        pyLower kw2 <:+: pyLower ("スタバ渋谷店".toList ++ ' ' :: joinItems [])) ∧
      ∀ (st : DBState) (llm : CatLLM),
        auto_categorize st llm "スタバ渋谷店".toList [] = (c, none)) := by
  have hyp : ∃ cat kws, (cat, kws) ∈ CATEGORY_KEYWORDS ∧ ∃ kw ∈ kws,
      (pyLower kw <:+: pyLower "スタバ渋谷店".toList ∨
       pyLower kw <:+: pyLower (joinItems [])) :=
    ⟨"会議費".toList,
     ["カフェ".toList, "スタバ".toList, "ドトール".toList, "打ち合わせ".toList],
     by decide, "スタバ".toList, by decide, Or.inl (by decide)⟩
  exact ⟨hyp, c8_keyword_rule_short_circuits "スタバ渋谷店".toList [] hyp⟩

/-- C10: every candidate returned at any confidence tier is a spending row
(amount strictly negative), and each of the two candidate queries returns at
most 10 rows (and only spending rows), for every state and every input. -/
theorem c10_spending_only_capped (llm : LLM) (cf : CF) (st : DBState)
    (a b : Str) (amt : Nat) (ids : List Str) :
    (∀ entry ∈ (match_with_moneyforward llm cf st).results, ∀ c ∈ entry.candidates,
      c.mf.amount < 0) ∧
    ((get_mf_candidates_by_range st a b amt).length ≤ 10 ∧
      ∀ t ∈ get_mf_candidates_by_range st a b amt, t.amount < 0) ∧
    ((get_mf_candidates_by_amount st amt ids).length ≤ 10 ∧
      ∀ t ∈ get_mf_candidates_by_amount st amt ids, t.amount < 0) :=
  ⟨fun entry he c hc => ((pass_good llm cf st).1 entry he c hc).2.2.2,
   ⟨range_query_len st a b amt, fun _ ht => (mem_range_query ht).2.1.2.2.2⟩,
   ⟨amount_query_len st amt ids, fun _ ht => (mem_amount_query ht).2.1.2.2.2⟩⟩

/-- C10 witness: the 5-day-gap scenario's uncertain candidate is a spending
row and the amount-only query on that state returns it within the cap. -/
theorem c10_witness :
    (c9Entry ∈ c9Pass.results ∧ c9Cand ∈ c9Entry.candidates ∧
     c9Tx ∈ get_mf_candidates_by_amount c9State 500 []) ∧
    (c9Cand.mf.amount < 0 ∧
     (get_mf_candidates_by_amount c9State 500 []).length ≤ 10 ∧
     c9Tx.amount < 0) :=
  ⟨⟨by decide, by decide, by decide⟩,
   (c10_spending_only_capped llmAnsNo cfNever c9State [] [] 500 []).1 c9Entry
     (by decide) c9Cand (by decide),
   ((c10_spending_only_capped llmAnsNo cfNever c9State [] [] 500 []).2.2).1,
   ((c10_spending_only_capped llmAnsNo cfNever c9State [] [] 500 []).2.2).2 c9Tx
     (by decide)⟩
